/-
  Verification of the attendance/payroll backend core
  (payroll accrual engine, attendance state machine, face matcher).

  Shallow embedding conventions:
  * Python floats are modelled as rationals (ℚ); Python ints as ℕ.
  * A `datetime` is modelled as an absolute count of seconds; its calendar
    date is `t / 86400` and its time-of-day is `t % 86400`.  A calendar
    date is modelled as a day number with `weekday d = d % 7`,
    day 0 being a Monday (e.g. 2024-01-01).
  * `None`-able columns are `Option` values; Python truthiness of an
    optional number (`if x:`) is `x ≠ None ∧ x ≠ 0`.
  * Timestamps that the code only stamps (`calculated_at`, `created_at`)
    and free-text fields are omitted: no computation reads them.
-/
import Mathlib

namespace Attendance

/-! ### Python-truthiness helpers -/

/-- Truthiness of an optional float: `None` and `0.0` are falsy. -/
def qTruthy : Option ℚ → Bool
  | none => false
  | some q => q != 0

/-- Truthiness of an optional string: `None` and `""` are falsy. -/
def sTruthy : Option String → Bool
  | none => false
  | some s => s != ""

/-- Python `x or d` for an optional float `x`: the default is used when
`x` is `None` or `0.0`. -/
def qOr (x : Option ℚ) (d : ℚ) : ℚ :=
  if qTruthy x then x.getD 0 else d

/-! ### Payroll data model (`app/models/payroll.py`, `app/models/employee.py`) -/

/-- `Employee`: the fields read by the payroll service.  `salary_rate`
is a nullable float, department/position are nullable strings. -/
structure Employee where
  salaryRate : Option ℚ
  department : Option String
  position : Option String
deriving Repr, DecidableEq

/-- `SalaryRule`: configurable payroll rule (`rule_type` is a free string
in the database; the service dispatches on "overtime", "tax", "bonus",
"deduction" and ignores anything else). -/
structure SalaryRule where
  ruleType : String
  rateMultiplier : Option ℚ
  fixedAmount : Option ℚ
  percentage : Option ℚ
  appliesToAll : Bool
  departmentFilter : Option String
  positionFilter : Option String
  isActive : Bool
deriving Repr, DecidableEq

/-- `PayrollRecord`: one row per (employee, period); every numeric column
the calculation touches. -/
structure PayrollRecord where
  employeeId : ℕ
  periodId : ℕ
  totalHours : ℚ
  regularHours : ℚ
  overtimeHours : ℚ
  daysWorked : ℕ
  daysAbsent : ℕ
  daysLate : ℕ
  baseSalary : ℚ
  hourlyRate : ℚ
  regularPay : ℚ
  overtimePay : ℚ
  bonus : ℚ
  taxDeduction : ℚ
  insuranceDeduction : ℚ
  otherDeductions : ℚ
  latePenalty : ℚ
  absenceDeduction : ℚ
  grossSalary : ℚ
  totalDeductions : ℚ
  netSalary : ℚ
deriving Repr, DecidableEq

/-- The freshly constructed `PayrollRecord(...)` of
`calculate_employee_payroll` lines 66-89: every numeric field zero. -/
def freshPayrollRecord (employeeId periodId : ℕ) : PayrollRecord where
  employeeId := employeeId
  periodId := periodId
  totalHours := 0
  regularHours := 0
  overtimeHours := 0
  daysWorked := 0
  daysAbsent := 0
  daysLate := 0
  baseSalary := 0
  hourlyRate := 0
  regularPay := 0
  overtimePay := 0
  bonus := 0
  taxDeduction := 0
  insuranceDeduction := 0
  otherDeductions := 0
  latePenalty := 0
  absenceDeduction := 0
  grossSalary := 0
  totalDeductions := 0
  netSalary := 0

/-- Attendance row as read by the payroll statistics
(`_calculate_work_statistics` only looks at `check_in` and
`total_hours`); `checkIn` is the check-in time-of-day in seconds. -/
structure AttRow where
  checkIn : Option ℕ
  totalHours : Option ℚ
deriving Repr, DecidableEq

/-! ### Work statistics (`payroll_service._calculate_work_statistics`) -/

/-- Body of the `while current_date <= period_end_date` loop
(lines 185-189), recursing on the number of remaining loop iterations:
counts weekdays (`weekday() < 5`, Monday=0) over `n` consecutive days
starting at `cur`. -/
def countWeekdays : ℕ → ℕ → ℕ
  | 0, _ => 0
  | n + 1, cur => (if cur % 7 < 5 then 1 else 0) + countWeekdays n (cur + 1)

/-- The `while current_date <= period_end_date` loop of
`_calculate_work_statistics`: it runs once per day of the inclusive
range `[cur, last]`, i.e. `last + 1 - cur` times. -/
def expectedWorkingDays (cur last : ℕ) : ℕ :=
  countWeekdays (last + 1 - cur) cur

/-- Result of `_calculate_work_statistics` (the returned dict). -/
structure WorkStats where
  totalHours : ℚ
  regularHours : ℚ
  overtimeHours : ℚ
  daysWorked : ℕ
  daysAbsent : ℕ
  daysLate : ℕ
deriving Repr, DecidableEq

/-- The record-processing loop of `_calculate_work_statistics`
(lines 192-200), threading the `(total_hours, days_worked, days_late)`
accumulators. -/
def statsLoop (recs : List AttRow) (acc : ℚ × ℕ × ℕ) : ℚ × ℕ × ℕ :=
  recs.foldl (fun acc r =>
    match r.checkIn with
    | none => acc
    | some t =>
        ( acc.1 + (if qTruthy r.totalHours then r.totalHours.getD 0 else 0),
          acc.2.1 + 1,
          acc.2.2 + (if 32400 < t then 1 else 0) )) acc

/-- `_calculate_work_statistics(attendance_records, start, end)`:
weekday counting, the accumulator loop, `days_absent = max(0, e - w)`
and the 8-hours-per-day regular/overtime split (lines 175-219).
`32400 = 9 * 3600` is the hard-coded 09:00 lateness cut-off. -/
def calculateWorkStatistics (recs : List AttRow) (startDay endDay : ℕ) :
    WorkStats :=
  let e := expectedWorkingDays startDay endDay
  let acc := statsLoop recs (0, 0, 0)
  let totalHours := acc.1
  let daysWorked := acc.2.1
  let daysLate := acc.2.2
  let daysAbsent := (max 0 ((e : ℤ) - (daysWorked : ℤ))).toNat
  let expectedTotalHours : ℚ := (e : ℚ) * 8
  { totalHours := totalHours
    regularHours := min totalHours expectedTotalHours
    overtimeHours := max 0 (totalHours - expectedTotalHours)
    daysWorked := daysWorked
    daysAbsent := daysAbsent
    daysLate := daysLate }

/-! ### Salary rules (`payroll_service._apply_salary_rules` and helpers) -/

/-- `_calculate_hourly_rate`: `monthly_salary / 160`, with falsy
(`None`/`0.0`) salary mapped to `0.0`. -/
def calculateHourlyRate (monthlySalary : Option ℚ) : ℚ :=
  if qTruthy monthlySalary then monthlySalary.getD 0 / 160 else 0

/-- `_rule_applies_to_employee` (lines 247-258): `applies_to_all` wins,
otherwise a truthy department/position filter must equal the employee's
field (a `None` employee field never equals a truthy filter). -/
def ruleAppliesToEmployee (rule : SalaryRule) (emp : Employee) : Bool :=
  if rule.appliesToAll then true
  else if sTruthy rule.departmentFilter && emp.department != rule.departmentFilter then false
  else if sTruthy rule.positionFilter && emp.position != rule.positionFilter then false
  else true

/-- `_apply_overtime_rule`: when overtime hours are positive, overwrite
`overtime_pay` using the rule's multiplier (default 1.5). -/
def applyOvertimeRule (rule : SalaryRule) (r : PayrollRecord) : PayrollRecord :=
  if 0 < r.overtimeHours then
    { r with overtimePay := r.overtimeHours * (r.hourlyRate * qOr rule.rateMultiplier (3/2)) }
  else r

/-- `_apply_tax_rule`: percentage takes precedence over fixed amount;
both falsy leaves `tax_deduction` untouched. -/
def applyTaxRule (rule : SalaryRule) (r : PayrollRecord) : PayrollRecord :=
  if qTruthy rule.percentage then
    { r with taxDeduction :=
        (r.regularPay + r.overtimePay + r.bonus) * (rule.percentage.getD 0 / 100) }
  else if qTruthy rule.fixedAmount then
    { r with taxDeduction := rule.fixedAmount.getD 0 }
  else r

/-- `_apply_bonus_rule`: accumulates (`+=`) into `bonus`. -/
def applyBonusRule (rule : SalaryRule) (r : PayrollRecord) : PayrollRecord :=
  if qTruthy rule.fixedAmount then
    { r with bonus := r.bonus + rule.fixedAmount.getD 0 }
  else if qTruthy rule.percentage then
    { r with bonus := r.bonus + (r.regularPay + r.overtimePay) * (rule.percentage.getD 0 / 100) }
  else r

/-- `_apply_deduction_rule` (lines 283-298): accumulates (`+=`) into
`other_deductions`, then overwrites `late_penalty` (when `days_late > 0`)
and `absence_deduction` (when `days_absent > 0`). -/
def applyDeductionRule (rule : SalaryRule) (r : PayrollRecord) : PayrollRecord :=
  let r :=
    if qTruthy rule.fixedAmount then
      { r with otherDeductions := r.otherDeductions + rule.fixedAmount.getD 0 }
    else if qTruthy rule.percentage then
      { r with otherDeductions :=
          r.otherDeductions + (r.regularPay + r.overtimePay) * (rule.percentage.getD 0 / 100) }
    else r
  let r :=
    if 0 < r.daysLate then
      { r with latePenalty := (r.daysLate : ℚ) * qOr rule.fixedAmount 0 }
    else r
  if 0 < r.daysAbsent then
    { r with absenceDeduction := (r.daysAbsent : ℚ) * (r.hourlyRate * 8) }
  else r

/-- Dispatch of `_apply_salary_rules` on `rule_type`; unknown types are
ignored. -/
def applyOneRule (emp : Employee) (r : PayrollRecord) (rule : SalaryRule) :
    PayrollRecord :=
  if ¬ ruleAppliesToEmployee rule emp then r
  else if rule.ruleType == "overtime" then applyOvertimeRule rule r
  else if rule.ruleType == "tax" then applyTaxRule rule r
  else if rule.ruleType == "bonus" then applyBonusRule rule r
  else if rule.ruleType == "deduction" then applyDeductionRule rule r
  else r

/-- `_apply_salary_rules`: iterate the active rules in query order
(lines 227-245). -/
def applySalaryRules (rules : List SalaryRule) (emp : Employee)
    (r : PayrollRecord) : PayrollRecord :=
  (rules.filter (·.isActive)).foldl (applyOneRule emp) r

/-! ### `calculate_employee_payroll` (lines 30-141) -/

/-- Lines 92-106: write the work statistics, base salary, hourly rate
and the pre-rule regular/overtime pay into the (fresh or fetched)
record. -/
def prepRecord (emp : Employee) (stats : WorkStats) (r : PayrollRecord) :
    PayrollRecord :=
  let hourly := calculateHourlyRate emp.salaryRate
  { r with
    totalHours := stats.totalHours
    regularHours := stats.regularHours
    overtimeHours := stats.overtimeHours
    daysWorked := stats.daysWorked
    daysAbsent := stats.daysAbsent
    daysLate := stats.daysLate
    baseSalary := (emp.salaryRate).getD 0
    hourlyRate := hourly
    regularPay := stats.regularHours * hourly
    overtimePay := stats.overtimeHours * (hourly * (3/2)) }

/-- Lines 111-132: the flat `$50`-per-late-day overwrite of
`late_penalty` followed by the gross/total-deductions/net totals. -/
def finishRecord (r : PayrollRecord) : PayrollRecord :=
  let r := if 0 < r.daysLate then
      { r with latePenalty := (r.daysLate : ℚ) * 50 } else r
  let gross := r.regularPay + r.overtimePay + r.bonus
  let deds := r.taxDeduction + r.insuranceDeduction + r.otherDeductions +
      r.latePenalty + r.absenceDeduction
  { r with
    grossSalary := gross
    totalDeductions := deds
    netSalary := gross - deds }

/-- `calculate_employee_payroll` as a pure function of the data the
queries return: the employee row, the attendance rows in the period's
date range, the period's date range itself, the salary-rule table and
the already-existing `(employee, period)` record if any. -/
def calculateEmployeePayroll (emp : Employee) (recs : List AttRow)
    (startDay endDay : ℕ) (rules : List SalaryRule)
    (employeeId periodId : ℕ) (existing : Option PayrollRecord) :
    PayrollRecord :=
  let stats := calculateWorkStatistics recs startDay endDay
  let base := existing.getD (freshPayrollRecord employeeId periodId)
  finishRecord (applySalaryRules rules emp (prepRecord emp stats base))

/-- Key predicate of the get-or-create query on `payroll_records`
(lines 58-63): same employee and period. -/
def recordKey (employeeId periodId : ℕ) (r : PayrollRecord) : Bool :=
  r.employeeId == employeeId && r.periodId == periodId

/-- The store-level effect of `calculate_employee_payroll` on the
`payroll_records` table: the first row matching the key is updated in
place, otherwise the computed row is appended (`db.add`). -/
def calculatePayrollStep (emp : Employee) (recs : List AttRow)
    (startDay endDay : ℕ) (rules : List SalaryRule)
    (employeeId periodId : ℕ) : List PayrollRecord → List PayrollRecord
  | [] => [calculateEmployeePayroll emp recs startDay endDay rules
      employeeId periodId none]
  | r :: rs =>
      if recordKey employeeId periodId r then
        calculateEmployeePayroll emp recs startDay endDay rules
          employeeId periodId (some r) :: rs
      else
        r :: calculatePayrollStep emp recs startDay endDay rules
          employeeId periodId rs

/-! ### Attendance state machine (`app/services/attendance_service.py`)

A `datetime` is an absolute second count `t`; its date is `t / 86400`
and its time-of-day `t % 86400`.  Shift `TIME` columns are `(hour,
minute)` pairs (the service round-trips them through `%H:%M`, dropping
seconds); both Python `time` comparisons used by the service are
lexicographic, which for in-range times coincides with comparing
total seconds (resp. total minutes). -/

/-- A shift row as used by check-in/check-out: `start_time` and
`end_time` as `(hour, minute)`. -/
structure ShiftT where
  startTime : ℕ × ℕ
  endTime : ℕ × ℕ
deriving Repr, DecidableEq

/-- An `attendance` row (`app/models/attendance.py`).  The resolved
shift is carried as a value (the code stores `shift_id` and re-queries
the immutable-during-our-runs `shifts` table at check-out). -/
structure ARec where
  emp : ℕ
  day : ℕ
  shift : Option ShiftT
  checkIn : ℕ
  checkOut : Option ℕ
  totalHours : Option ℚ
  overtimeHours : Option ℚ
  status : String
deriving Repr, DecidableEq

/-- The open-record predicate of both queries (lines 33-39 and
104-110): same employee, same date string, `check_out IS NULL`. -/
def isOpenFor (e d : ℕ) (r : ARec) : Bool :=
  r.emp == e && r.day == d && r.checkOut == none

/-- Lateness classification of `check_in_employee` lines 58-67.
`datetime.replace(minute=minute+15)` raises `ValueError` whenever the
shift-start minute exceeds 44; otherwise the check-in time-of-day is
compared (strictly) against the threshold `(h, m+15, 0)`. -/
def lateCheck (sh : ShiftT) (checkInTod : ℕ) : Except Unit String :=
  if 59 < sh.startTime.2 + 15 then .error ()
  else if sh.startTime.1 * 3600 + (sh.startTime.2 + 15) * 60 < checkInTod
    then .ok "late" else .ok "present"

/-- Result of `check_in_employee`. -/
inductive CheckInRes
  /-- "Employee already checked in today" (`success: False`). -/
  | alreadyCheckedIn
  /-- the `ValueError` escaping from the lateness computation -/
  | valueError
  /-- successful check-in with the recorded status -/
  | ok (status : String)
deriving Repr, DecidableEq

/-- `check_in_employee(employee_id, check_in_time)`.  `shiftFor e w` is
`shift_service.get_employee_current_shift` for employee `e` on weekday
`w` (the shift table is not modified by these operations). -/
def checkInEmployee (shiftFor : ℕ → ℕ → Option ShiftT) (e t : ℕ)
    (db : List ARec) : List ARec × CheckInRes :=
  let d := t / 86400
  if db.any (isOpenFor e d) then (db, .alreadyCheckedIn)
  else
    match shiftFor e (d % 7) with
    | none =>
        (db ++ [⟨e, d, none, t, none, none, none, "present"⟩], .ok "present")
    | some sh =>
        match lateCheck sh (t % 86400) with
        | .error _ => (db, .valueError)
        | .ok st => (db ++ [⟨e, d, some sh, t, none, none, none, st⟩], .ok st)

/-- Python `time` comparison `shift_end < shift_start` on `(h, m)`
pairs: lexicographic, i.e. total minutes for in-range times. -/
def timeLtMin (a b : ℕ × ℕ) : Bool :=
  a.1 * 60 + a.2 < b.1 * 60 + b.2

/-- Shift duration in hours (lines 136-140), including the overnight
case `(24 - start.hour - start.minute/60) + (end.hour + end.minute/60)`. -/
def shiftDuration (sh : ShiftT) : ℚ :=
  if timeLtMin sh.endTime sh.startTime then
    (24 - (sh.startTime.1 : ℚ) - (sh.startTime.2 : ℚ) / 60) +
      ((sh.endTime.1 : ℚ) + (sh.endTime.2 : ℚ) / 60)
  else
    ((sh.endTime.1 : ℚ) + (sh.endTime.2 : ℚ) / 60) -
      ((sh.startTime.1 : ℚ) + (sh.startTime.2 : ℚ) / 60)

/-- Round a rational to two decimals (Python's `round(x, 2)`). -/
def round2 (q : ℚ) : ℚ := (round (q * 100) : ℚ) / 100

/-- The successful response dict of `check_out_employee`
(lines 154-162): hour figures rounded to two decimals. -/
structure CheckOutRes where
  totalHours : ℚ
  regularHours : ℚ
  overtimeHours : ℚ
deriving Repr, DecidableEq

/-- Hour computation of `check_out_employee` lines 118-144: exact total
hours, then the shift split when a shift is attached. -/
def checkOutHours (r : ARec) (t : ℕ) : ℚ × ℚ × ℚ :=
  let totalHours : ℚ := ((t : ℚ) - (r.checkIn : ℚ)) / 3600
  match r.shift with
  | none => (totalHours, totalHours, 0)
  | some sh =>
      let dur := shiftDuration sh
      if dur < totalHours then (totalHours, dur, totalHours - dur)
      else (totalHours, totalHours, 0)

/-- Replace the first list element satisfying `p` by `f` of it. -/
def updateFirst (p : α → Bool) (f : α → α) : List α → List α
  | [] => []
  | x :: xs => if p x then f x :: xs else x :: updateFirst p f xs

/-- `check_out_employee(employee_id, check_out_time)`: find the first
open record for today, store the check-out time and the (unrounded)
total/overtime hours, and return the rounded response. -/
def checkOutEmployee (e t : ℕ) (db : List ARec) :
    List ARec × Option CheckOutRes :=
  let d := t / 86400
  match db.find? (isOpenFor e d) with
  | none => (db, none)
  | some r =>
      let h := checkOutHours r t
      ( updateFirst (isOpenFor e d)
          (fun r => { r with checkOut := some t, totalHours := some h.1,
                             overtimeHours := some h.2.2 }) db,
        some ⟨round2 h.1, round2 h.2.1, round2 h.2.2⟩ )

/-- One attendance operation. -/
inductive AttOp
  | checkIn (e t : ℕ)
  | checkOut (e t : ℕ)
deriving Repr, DecidableEq

/-- Apply one operation to the attendance store. -/
def attStep (shiftFor : ℕ → ℕ → Option ShiftT) (db : List ARec) :
    AttOp → List ARec
  | .checkIn e t => (checkInEmployee shiftFor e t db).1
  | .checkOut e t => (checkOutEmployee e t db).1

/-- Run a sequence of check-in/check-out operations from a store. -/
def attRun (shiftFor : ℕ → ℕ → Option ShiftT) (db : List ARec)
    (ops : List AttOp) : List ARec :=
  ops.foldl (attStep shiftFor) db

/-! ### Face matcher (`app/services/simple_face_service.py`)

`compare_faces` computes the Pearson correlation
`corr = S / √(Px * Py)` with `S = Σ (xᵢ-x̄)(yᵢ-ȳ)`,
`Px = Σ (xᵢ-x̄)²`, `Py = Σ (yᵢ-ȳ)²`.  The correlation is irrational in
general, so it is represented exactly by the pair `(s, p)` denoting
`s / √p` with `p > 0` (NaN — a zero radicand — is already folded to the
code's `correlation = 0.0`, represented as `(0, 1)`); every comparison
the service performs on correlations/distances is implemented as the
corresponding exact rational test obtained by sign analysis and
squaring.  `similarity = (corr + 1) / 2` and `distance = 1 - similarity
= (1 - corr) / 2`, so `similarity ≥ tol ↔ corr ≥ 2·tol - 1` and
`distance₁ < distance₂ ↔ corr₁ > corr₂`. -/

/-- Exact representation of a correlation value `s / √p` (`p > 0`). -/
structure CorrRep where
  s : ℚ
  p : ℚ
deriving Repr, DecidableEq

/-- `s / √p ≥ q`, decided by sign analysis and squaring (valid for
`p > 0`). -/
def corrGe (c : CorrRep) (q : ℚ) : Bool :=
  if 0 ≤ c.s then q ≤ 0 || q ^ 2 * c.p ≤ c.s ^ 2
  else q < 0 && c.s ^ 2 ≤ q ^ 2 * c.p

/-- `s₁ / √p₁ > s₂ / √p₂`, decided by sign analysis and squaring
(valid for `p₁, p₂ > 0`). -/
def corrGt (c₁ c₂ : CorrRep) : Bool :=
  if 0 ≤ c₁.s then
    if 0 ≤ c₂.s then c₂.s ^ 2 * c₁.p < c₁.s ^ 2 * c₂.p else true
  else
    if 0 ≤ c₂.s then false else c₁.s ^ 2 * c₂.p < c₂.s ^ 2 * c₁.p

/-- Mean of a list of floats (`np.mean`). -/
def listMean (xs : List ℚ) : ℚ := xs.sum / xs.length

/-- `Σ (xᵢ - x̄)(yᵢ - ȳ)` over the zipped lists. -/
def covSum (xs ys : List ℚ) : ℚ :=
  ((xs.zip ys).map (fun v => (v.1 - listMean xs) * (v.2 - listMean ys))).sum

/-- `Σ (xᵢ - x̄)²`. -/
def varSum (xs : List ℚ) : ℚ :=
  (xs.map (fun x => (x - listMean xs) ^ 2)).sum

/-- `np.corrcoef(x, y)[0, 1]` with the service's NaN handling
(lines 122-127): a zero radicand (either vector has zero variance, in
particular empty or constant vectors) yields NaN, which the code
replaces by `correlation = 0.0`. -/
def pearson (xs ys : List ℚ) : CorrRep :=
  let P := varSum xs * varSum ys
  if P = 0 then ⟨0, 1⟩ else ⟨covSum xs ys, P⟩

/-- `compare_faces(known_features, unknown_features)` (lines 113-138).
Mismatched lengths make `np.corrcoef` raise; the `except` clause turns
this into `(False, 1.0)` — distance `1.0` is correlation `-1`, i.e.
`(-1, 1)`.  Otherwise `is_match = similarity ≥ tolerance`, and the
returned distance `(1 - corr) / 2` is represented by the correlation
itself. -/
def compareFaces (tol : ℚ) (known unknown : List ℚ) : Bool × CorrRep :=
  if known.length ≠ unknown.length then (false, ⟨-1, 1⟩)
  else
    let c := pearson known unknown
    (corrGe c (2 * tol - 1), c)

/-- The loop body state of `find_best_match`: no candidate yet means
`best_distance = inf`, so any distance is an improvement. -/
def distLtBest (c : CorrRep) : Option (ℕ × CorrRep) → Bool
  | none => true
  | some b => corrGt c b.2

/-- The scanning loop of `find_best_match` (lines 151-160) over the
remaining candidates, carrying the current best. -/
def findLoop (tol : ℚ) (unknown : List ℚ) (known : List (ℕ × List ℚ))
    (best : Option (ℕ × CorrRep)) : Option (ℕ × CorrRep) :=
  match known with
  | [] => best
  | (id, kf) :: rest =>
      let cmp := compareFaces tol kf unknown
      if cmp.1 && distLtBest cmp.2 best then
        findLoop tol unknown rest (some (id, cmp.2))
      else findLoop tol unknown rest best

/-- `find_best_match(unknown_features, known_faces)` (lines 140-171):
returns the matching candidate with the smallest distance (first seen
wins ties), `None` for an empty candidate list or when nothing matches. -/
def findBestMatch (tol : ℚ) (unknown : List ℚ)
    (known : List (ℕ × List ℚ)) : Option (ℕ × CorrRep) :=
  findLoop tol unknown known none

/-- Modelled from the spec: the matcher as §4.1 words it — "A candidate
matches if `distance <= tolerance`" and "treat NaN correlation as
`similarity = 0`" (similarity 0 is correlation `-1`); everything else
as in the code.  Used only to compare the spec's matcher against the
implemented one. -/
def compareFacesSpec (tol : ℚ) (known unknown : List ℚ) : Bool × CorrRep :=
  if known.length ≠ unknown.length then (false, ⟨-1, 1⟩)
  else
    let P := varSum known * varSum unknown
    let c : CorrRep := if P = 0 then ⟨-1, 1⟩ else ⟨covSum known unknown, P⟩
    -- distance ≤ tol ↔ (1 - corr)/2 ≤ tol ↔ corr ≥ 1 - 2·tol
    (corrGe c (1 - 2 * tol), c)

/-- Modelled from the spec: the scan of `findBestMatchSpec`. -/
def findLoopSpec (tol : ℚ) (unknown : List ℚ) (known : List (ℕ × List ℚ))
    (best : Option (ℕ × CorrRep)) : Option (ℕ × CorrRep) :=
  match known with
  | [] => best
  | (id, kf) :: rest =>
      let cmp := compareFacesSpec tol kf unknown
      if cmp.1 && distLtBest cmp.2 best then
        findLoopSpec tol unknown rest (some (id, cmp.2))
      else findLoopSpec tol unknown rest best

/-- Modelled from the spec: `find_best_match` with the spec's match
condition. -/
def findBestMatchSpec (tol : ℚ) (unknown : List ℚ)
    (known : List (ℕ × List ℚ)) : Option (ℕ × CorrRep) :=
  findLoopSpec tol unknown known none

/-! ### Field masks used by the idempotence analysis -/

/-- Mask out the fields of a payroll record that
`calculate_employee_payroll` always recomputes at the very end or that
only it writes (`tax_deduction`, `late_penalty`, `absence_deduction`,
`gross_salary`, `total_deductions`, `net_salary`); two records agree
outside these six fields iff their masks are equal. -/
def maskDerived (r : PayrollRecord) : PayrollRecord :=
  { r with taxDeduction := 0, latePenalty := 0, absenceDeduction := 0,
           grossSalary := 0, totalDeductions := 0, netSalary := 0 }

/-- A rule that never *accumulates* into `bonus`/`other_deductions`
when `calculate_employee_payroll` runs: it is inactive, inapplicable,
not of type `bonus`/`deduction`, or has no truthy `fixed_amount` or
`percentage` to add. -/
def noAccumRule (emp : Employee) (rule : SalaryRule) : Bool :=
  !(rule.isActive && (ruleAppliesToEmployee rule emp &&
      (rule.ruleType == "bonus" || rule.ruleType == "deduction"))) ||
    (!qTruthy rule.fixedAmount && !qTruthy rule.percentage)

/-! ## Theorems -/

/-! ### Attendance state machine lemmas -/

/-- `updateFirst` with a closing update never increases any open count. -/
lemma countP_updateFirst_le (p q : α → Bool) (f : α → α)
    (hf : ∀ a, q (f a) = false) :
    ∀ l : List α, (updateFirst p f l).countP q ≤ l.countP q := by
  intro l
  induction l with
  | nil => simp [updateFirst]
  | cons x xs ih =>
      cases hx : p x
      · simp only [updateFirst, hx, Bool.false_eq_true, if_false,
          List.countP_cons]
        omega
      · simp only [updateFirst, hx, if_true, List.countP_cons, hf,
          Bool.false_eq_true, if_false, Nat.add_zero]
        cases hq : q x
        · simp [hq]
        · simp only [hq, if_true]
          omega

/-- A single check-in or check-out preserves the per-(employee, date)
bound on open records. -/
lemma attStep_open_le (shiftFor : ℕ → ℕ → Option ShiftT) (db : List ARec)
    (op : AttOp) (e d : ℕ) (h : db.countP (isOpenFor e d) ≤ 1) :
    (attStep shiftFor db op).countP (isOpenFor e d) ≤ 1 := by
  cases op with
  | checkIn e' t =>
      simp only [attStep, checkInEmployee]
      by_cases hopen : db.any (isOpenFor e' (t / 86400))
      · simpa [hopen] using h
      · have hnew : ∀ (sh : Option ShiftT) (st : String),
            (db ++ [(⟨e', t / 86400, sh, t, none, none, none, st⟩ :
              ARec)]).countP (isOpenFor e d) ≤ 1 := by
          intro sh st
          rw [List.countP_append]
          by_cases hkey : e = e' ∧ d = t / 86400
          · have h0 : db.countP (isOpenFor e d) = 0 := by
              rw [List.countP_eq_zero]
              intro r hr
              have := (List.any_eq_false.mp (by simpa using hopen)) r hr
              simpa [hkey.1, hkey.2] using this
            have h1 : ([(⟨e', t / 86400, sh, t, none, none, none, st⟩ :
                ARec)]).countP (isOpenFor e d) ≤ 1 := by
              simp only [List.countP_cons, List.countP_nil]
              split <;> omega
            omega
          · have h1 : ([(⟨e', t / 86400, sh, t, none, none, none, st⟩ :
                ARec)]).countP (isOpenFor e d) = 0 := by
              rw [List.countP_eq_zero]
              intro r hr
              simp only [List.mem_singleton] at hr
              subst hr
              simp [isOpenFor]
              intro h1 h2
              exact hkey ⟨h1.symm, h2.symm⟩
            omega
        simp only [hopen, Bool.false_eq_true, if_false]
        rcases hsh : shiftFor e' (t / 86400 % 7) with _ | sh
        · simpa [hsh] using hnew none "present"
        · rcases hlc : lateCheck sh (t % 86400) with _ | st
          · simpa [hsh, hlc] using h
          · simpa [hsh, hlc] using hnew (some sh) st
  | checkOut e' t =>
      simp only [attStep, checkOutEmployee]
      rcases hf : db.find? (isOpenFor e' (t / 86400)) with _ | r
      · simpa using h
      · simp only
        refine le_trans (countP_updateFirst_le _ _ _ ?_ db) h
        intro a
        simp [isOpenFor]

/-- Any run from a store satisfying the open bound keeps satisfying it. -/
lemma attRun_open_le (shiftFor : ℕ → ℕ → Option ShiftT) (ops : List AttOp)
    (db : List ARec) (e d : ℕ) (h : db.countP (isOpenFor e d) ≤ 1) :
    (attRun shiftFor db ops).countP (isOpenFor e d) ≤ 1 := by
  induction ops generalizing db with
  | nil => simpa [attRun] using h
  | cons op ops ih =>
      simpa [attRun] using ih (attStep shiftFor db op)
        (attStep_open_le shiftFor db op e d h)

/-! ### C5 — lateness classification -/

/-- C5 counterexample: for a resolved shift starting at `08:50` the
lateness computation is *undefined*: `late_threshold.replace(minute=50+15)`
raises `ValueError` (minute 65 is out of range), so a `09:30:00` check-in
creates no record and yields no status at all, refuting "this
classification is defined for every shift start time-of-day". -/
theorem checkIn_lateness_C5_counterexample :
    checkInEmployee (fun _ _ => some ⟨(8, 50), (17, 0)⟩) 1 34200 [] =
      ([], CheckInRes.valueError) := by
  decide

/-- C5 (amended): when a shift is resolved for the weekday *and its
start minute is at most 44* (otherwise the 15-minute threshold
computation raises `ValueError` and no record is created), a check-in
creates a record whose status is `"late"` iff the check-in time-of-day
is strictly later than shift start + 15 minutes, and `"present"`
otherwise. -/
theorem checkIn_lateness_C5 (shiftFor : ℕ → ℕ → Option ShiftT)
    (db : List ARec) (e t : ℕ) (sh : ShiftT)
    (hopen : db.any (isOpenFor e (t / 86400)) = false)
    (hsh : shiftFor e (t / 86400 % 7) = some sh)
    (hm : sh.startTime.2 + 15 ≤ 59) :
    checkInEmployee shiftFor e t db =
      (db ++ [⟨e, t / 86400, some sh, t, none, none, none,
        if sh.startTime.1 * 3600 + sh.startTime.2 * 60 + 900 < t % 86400
          then "late" else "present"⟩],
       CheckInRes.ok
        (if sh.startTime.1 * 3600 + sh.startTime.2 * 60 + 900 < t % 86400
          then "late" else "present")) := by
  have harith : sh.startTime.1 * 3600 + (sh.startTime.2 + 15) * 60 =
      sh.startTime.1 * 3600 + sh.startTime.2 * 60 + 900 := by ring
  have hlc : lateCheck sh (t % 86400) =
      .ok (if sh.startTime.1 * 3600 + sh.startTime.2 * 60 + 900 < t % 86400
        then "late" else "present") := by
    simp only [lateCheck, harith]
    have : ¬ 59 < sh.startTime.2 + 15 := by omega
    simp only [this, if_false]
    split <;> simp_all
  simp [checkInEmployee, hopen, hsh, hlc]

/-- C5 witness: shift start `09:00` — a `09:15:00` check-in (time-of-day
33300 s) is recorded `"present"`, a `09:15:01` check-in is `"late"`. -/
theorem checkIn_lateness_C5_witness :
    ((fun (_ : ℕ) (_ : ℕ) => some (⟨(9, 0), (17, 0)⟩ : ShiftT)) 1
        (33300 / 86400 % 7) = some ⟨(9, 0), (17, 0)⟩) ∧
      (9 : ℕ) * 3600 + 15 * 60 = 33300 ∧
      checkInEmployee (fun _ _ => some ⟨(9, 0), (17, 0)⟩) 1 33300 [] =
        ([⟨1, 0, some ⟨(9, 0), (17, 0)⟩, 33300, none, none, none,
          "present"⟩], CheckInRes.ok "present") ∧
      checkInEmployee (fun _ _ => some ⟨(9, 0), (17, 0)⟩) 1 33301 [] =
        ([⟨1, 0, some ⟨(9, 0), (17, 0)⟩, 33301, none, none, none,
          "late"⟩], CheckInRes.ok "late") := by
  refine ⟨rfl, by norm_num, ?_, ?_⟩
  · have h := checkIn_lateness_C5 (fun _ _ => some ⟨(9, 0), (17, 0)⟩) []
      1 33300 ⟨(9, 0), (17, 0)⟩ (by decide) rfl (by decide)
    simpa using h
  · have h := checkIn_lateness_C5 (fun _ _ => some ⟨(9, 0), (17, 0)⟩) []
      1 33301 ⟨(9, 0), (17, 0)⟩ (by decide) rfl (by decide)
    simpa using h

/-! ### C6 — check-out hour computation -/

/-- C6: on a successful check-out of the open record `r`, the response
carries `totalHours = (checkOut − checkIn)/3600 s` rounded to two
decimals; with a shift attached, `regularHours = min(totalHours,
shiftDuration)` and `overtimeHours = max(0, totalHours −
shiftDuration)` (rounded); without one, `regularHours = totalHours` and
`overtimeHours = 0`; the shift duration is `(24h − start) + end` when
`end < start` and `end − start` otherwise, so `22:00–06:00` is `8.0` h. -/
theorem checkOut_hours_C6 (db : List ARec) (e t : ℕ) (r : ARec)
    (hfind : db.find? (isOpenFor e (t / 86400)) = some r) :
    (checkOutEmployee e t db).2 =
      some ⟨round2 (((t : ℚ) - (r.checkIn : ℚ)) / 3600),
            round2 (match r.shift with
              | none => ((t : ℚ) - (r.checkIn : ℚ)) / 3600
              | some sh => min (((t : ℚ) - (r.checkIn : ℚ)) / 3600)
                  (shiftDuration sh)),
            round2 (match r.shift with
              | none => 0
              | some sh => max 0 (((t : ℚ) - (r.checkIn : ℚ)) / 3600 -
                  shiftDuration sh))⟩ ∧
      round2 (0 : ℚ) = 0 ∧
      (∀ sh : ShiftT, timeLtMin sh.endTime sh.startTime = true →
        shiftDuration sh = (24 - (sh.startTime.1 : ℚ) -
          (sh.startTime.2 : ℚ) / 60) +
          ((sh.endTime.1 : ℚ) + (sh.endTime.2 : ℚ) / 60)) ∧
      (∀ sh : ShiftT, timeLtMin sh.endTime sh.startTime = false →
        shiftDuration sh = ((sh.endTime.1 : ℚ) + (sh.endTime.2 : ℚ) / 60) -
          ((sh.startTime.1 : ℚ) + (sh.startTime.2 : ℚ) / 60)) ∧
      shiftDuration ⟨(22, 0), (6, 0)⟩ = 8 := by
  refine ⟨?_, by simp [round2], fun sh h => by simp [shiftDuration, h],
    fun sh h => by simp [shiftDuration, h], by norm_num [shiftDuration, timeLtMin]⟩
  simp only [checkOutEmployee, hfind]
  have hh : checkOutHours r t =
      (((t : ℚ) - (r.checkIn : ℚ)) / 3600,
       (match r.shift with
        | none => ((t : ℚ) - (r.checkIn : ℚ)) / 3600
        | some sh => min (((t : ℚ) - (r.checkIn : ℚ)) / 3600)
            (shiftDuration sh)),
       (match r.shift with
        | none => (0 : ℚ)
        | some sh => max 0 (((t : ℚ) - (r.checkIn : ℚ)) / 3600 -
            shiftDuration sh))) := by
    rcases hs : r.shift with _ | sh
    · simp [checkOutHours, hs]
    · simp only [checkOutHours, hs]
      rcases lt_or_le (shiftDuration sh) (((t : ℚ) - (r.checkIn : ℚ)) / 3600)
        with hlt | hle
      · rw [if_pos hlt, min_eq_right hlt.le,
          max_eq_right (by linarith : (0 : ℚ) ≤ _ - shiftDuration sh)]
      · rw [if_neg (not_lt.mpr hle), min_eq_left hle,
          max_eq_left (by linarith : _ - shiftDuration sh ≤ (0 : ℚ))]
  rw [hh]

/-- C6 witness: an attached `09:00–17:00` shift (duration 8 h) and a
10-hour session round to `totalHours = 10`, `regularHours = 8`,
`overtimeHours = 2`. -/
theorem checkOut_hours_C6_witness :
    ([(⟨1, 0, some ⟨(9, 0), (17, 0)⟩, 0, none, none, none, "present"⟩ :
        ARec)].find? (isOpenFor 1 (36000 / 86400)) =
      some ⟨1, 0, some ⟨(9, 0), (17, 0)⟩, 0, none, none, none, "present"⟩) ∧
    (checkOutEmployee 1 36000
        [⟨1, 0, some ⟨(9, 0), (17, 0)⟩, 0, none, none, none, "present"⟩]).2 =
      some ⟨10, 8, 2⟩ := by
  have h := checkOut_hours_C6
    [⟨1, 0, some ⟨(9, 0), (17, 0)⟩, 0, none, none, none, "present"⟩] 1 36000
    ⟨1, 0, some ⟨(9, 0), (17, 0)⟩, 0, none, none, none, "present"⟩ (by decide)
  refine ⟨by decide, ?_⟩
  rw [h.1]
  norm_num [shiftDuration, timeLtMin, round2]

/-! ### C7 / C8 — attendance store invariants -/

/-- C7 counterexample: check-in, check-out and a second check-in on the
same date all succeed and leave *two* rows for `(employee 1, day 0)`
— only *open* records block a check-in, so a closed record does not
prevent a second same-day row, refuting "at most one row per
(employee, date)". -/
theorem attendance_rows_C7_counterexample :
    ((attRun (fun _ _ => none) []
        [.checkIn 1 3600, .checkOut 1 7200, .checkIn 1 10800]).countP
      (fun r => r.emp == 1 && r.day == 0)) = 2 := by
  decide

/-- C7 (amended): after any sequence of check-ins and check-outs from an
empty store, each (employee, date) pair has at most one *open* record
(`checkOut` null); additional *closed* rows for the same date are
possible (see the counterexample). -/
theorem attendance_rows_C7 (shiftFor : ℕ → ℕ → Option ShiftT)
    (ops : List AttOp) (e d : ℕ) :
    (attRun shiftFor [] ops).countP (isOpenFor e d) ≤ 1 :=
  attRun_open_le shiftFor ops [] e d (by simp)

/-- C8: check-in fails with "already checked in" (no record created,
store unchanged) whenever an open record exists for that employee and
date, and consequently any operation sequence preserves the
at-most-one-open-record bound for every (employee, date) pair. -/
theorem attendance_open_C8 :
    (∀ (shiftFor : ℕ → ℕ → Option ShiftT) (db : List ARec) (e t : ℕ),
      db.any (isOpenFor e (t / 86400)) = true →
        checkInEmployee shiftFor e t db = (db, CheckInRes.alreadyCheckedIn)) ∧
    (∀ (shiftFor : ℕ → ℕ → Option ShiftT) (db : List ARec)
        (ops : List AttOp) (e d : ℕ),
      db.countP (isOpenFor e d) ≤ 1 →
        (attRun shiftFor db ops).countP (isOpenFor e d) ≤ 1) := by
  constructor
  · intro shiftFor db e t h
    simp [checkInEmployee, h]
  · intro shiftFor db ops e d h
    exact attRun_open_le shiftFor ops db e d h

/-- C8 witness: with an open record for employee 1 on day 0 already in
the store, a second check-in at second 30 of day 0 is rejected and the
store is unchanged; the open bound holds after a run. -/
theorem attendance_open_C8_witness :
    ([(⟨1, 0, none, 10, none, none, none, "present"⟩ : ARec)].any
        (isOpenFor 1 (30 / 86400)) = true) ∧
    checkInEmployee (fun _ _ => none) 1 30
        [⟨1, 0, none, 10, none, none, none, "present"⟩] =
      ([⟨1, 0, none, 10, none, none, none, "present"⟩],
        CheckInRes.alreadyCheckedIn) ∧
    ([(⟨1, 0, none, 10, none, none, none, "present"⟩ : ARec)].countP
        (isOpenFor 1 0) ≤ 1) ∧
    (attRun (fun _ _ => none)
        [⟨1, 0, none, 10, none, none, none, "present"⟩]
        [.checkIn 1 3600]).countP (isOpenFor 1 0) ≤ 1 :=
  ⟨by decide,
   attendance_open_C8.1 (fun _ _ => none)
     [⟨1, 0, none, 10, none, none, none, "present"⟩] 1 30 (by decide),
   by decide,
   attendance_open_C8.2 (fun _ _ => none)
     [⟨1, 0, none, 10, none, none, none, "present"⟩] [.checkIn 1 3600] 1 0
     (by decide)⟩

/-! ### C4 — mismatched vector lengths -/

/-- C4 counterexample: comparing vectors of lengths 3 and 2 does *not*
fail loudly — `compare_faces` catches the `np.corrcoef` error and
returns the silent non-match `(False, 1.0)` (distance `1.0` is
correlation `-1`), and `find_best_match` just treats the candidate as a
non-match; no `InvalidInputError` exists anywhere in the code. -/
theorem compare_length_C4_counterexample :
    compareFaces (3/5) [1, 2, 3] [1, 2] = (false, ⟨-1, 1⟩) ∧
    findBestMatch (3/5) [1, 2] [(9, [1, 2, 3])] = none := by
  constructor <;> rfl

/-- C4 (amended): for every pair of feature vectors of unequal length,
`compare_faces` silently degrades: the internal error is caught and the
pair is reported as a non-match with distance `1.0` (correlation `-1`);
no exception reaches the caller. -/
theorem compare_length_C4 (tol : ℚ) (known unknown : List ℚ)
    (h : known.length ≠ unknown.length) :
    compareFaces tol known unknown = (false, ⟨-1, 1⟩) := by
  simp [compareFaces, h]

/-- C4 witness: lengths 1 and 0 differ and yield the silent non-match. -/
theorem compare_length_C4_witness :
    (([(0 : ℚ)].length ≠ ([] : List ℚ).length)) ∧
      compareFaces (3/5) [0] [] = (false, ⟨-1, 1⟩) :=
  ⟨by decide, compare_length_C4 (3/5) [0] [] (by decide)⟩

/-! ### C9 — work statistics -/

/-- A falsy optional float defaults to `0`. -/
lemma qTruthy_false_getD {o : Option ℚ} (h : qTruthy o = false) :
    o.getD 0 = 0 := by
  cases o with
  | none => rfl
  | some q => simpa [qTruthy] using h

/-- The truthiness guard on `total_hours` is redundant for the sum. -/
lemma qTruthy_ite (o : Option ℚ) :
    (if qTruthy o then o.getD 0 else 0) = o.getD 0 := by
  cases o with
  | none => rfl
  | some q =>
      by_cases h : q = 0 <;> simp [qTruthy, h]

/-- The accumulator loop of `_calculate_work_statistics` computes the
per-record sums and counts on top of its starting accumulator. -/
lemma statsLoop_spec (recs : List AttRow) : ∀ a : ℚ × ℕ × ℕ,
    statsLoop recs a =
      (a.1 + (recs.map (fun r =>
          if r.checkIn.isSome then r.totalHours.getD 0 else 0)).sum,
       a.2.1 + recs.countP (fun r => r.checkIn.isSome),
       a.2.2 + recs.countP (fun r => r.checkIn.any (fun t => 32400 < t))) := by
  induction recs with
  | nil => intro a; simp [statsLoop]
  | cons r rs ih =>
      intro a
      rcases hc : r.checkIn with _ | t
      · have : statsLoop (r :: rs) a = statsLoop rs a := by
          simp [statsLoop, hc]
        rw [this, ih]
        simp [List.countP_cons, hc]
      · have : statsLoop (r :: rs) a = statsLoop rs
            (a.1 + (if qTruthy r.totalHours then r.totalHours.getD 0 else 0),
             a.2.1 + 1, a.2.2 + (if 32400 < t then 1 else 0)) := by
          simp [statsLoop, hc]
        rw [this, ih, qTruthy_ite]
        simp only [List.map_cons, List.sum_cons, List.countP_cons, hc,
          Option.isSome_some, Option.any_some, if_true]
        refine Prod.ext ?_ (Prod.ext ?_ ?_) <;> simp <;> [ring; omega; skip]
        by_cases hlt : 32400 < t <;> simp [hlt] <;> omega

/-- The weekday-counting loop equals the count of weekdays in the
inclusive day range. -/
lemma countWeekdays_spec : ∀ (n cur : ℕ),
    countWeekdays n cur = (List.range' cur n).countP (fun d => d % 7 < 5) := by
  intro n
  induction n with
  | zero => intro cur; simp [countWeekdays]
  | succ n ih =>
      intro cur
      rw [countWeekdays, List.range'_succ, List.countP_cons, ih]
      by_cases h5 : cur % 7 < 5 <;> simp [h5] <;> omega

/-- The weekday-counting loop equals the count of weekdays in the
inclusive day range. -/
lemma expectedWorkingDays_spec (cur last : ℕ) :
    expectedWorkingDays cur last =
      (List.range' cur (last + 1 - cur)).countP (fun d => d % 7 < 5) :=
  countWeekdays_spec _ _

/-- C9: the work statistics are exactly the spec's formulas —
`expectedWorkingDays` counts Monday–Friday dates between start and end
inclusive, `daysWorked` counts records with a check-in, `daysLate`
counts records checked in strictly after 09:00 (32400 s), `totalHours`
sums the recorded `totalHours` (the well-formedness hypothesis: a
record without a check-in carries no truthy `totalHours`, as guaranteed
by the check-in/check-out flow), `daysAbsent = max(0, expected −
worked)`, `regularHours = min(totalHours, expected·8)` and
`overtimeHours = max(0, totalHours − expected·8)`. -/
theorem work_stats_C9 (recs : List AttRow) (sd ed : ℕ)
    (hwf0 : recs.all (fun r => r.checkIn.isSome || !qTruthy r.totalHours) =
      true) :
    expectedWorkingDays sd ed =
      (List.range' sd (ed + 1 - sd)).countP (fun d => d % 7 < 5) ∧
    (calculateWorkStatistics recs sd ed).daysWorked =
      recs.countP (fun r => r.checkIn.isSome) ∧
    (calculateWorkStatistics recs sd ed).daysLate =
      recs.countP (fun r => r.checkIn.any (fun t => 32400 < t)) ∧
    (calculateWorkStatistics recs sd ed).totalHours =
      (recs.map (fun r => r.totalHours.getD 0)).sum ∧
    ((calculateWorkStatistics recs sd ed).daysAbsent : ℤ) =
      max 0 ((expectedWorkingDays sd ed : ℤ) -
        ((calculateWorkStatistics recs sd ed).daysWorked : ℤ)) ∧
    (calculateWorkStatistics recs sd ed).regularHours =
      min (calculateWorkStatistics recs sd ed).totalHours
        ((expectedWorkingDays sd ed : ℚ) * 8) ∧
    (calculateWorkStatistics recs sd ed).overtimeHours =
      max 0 ((calculateWorkStatistics recs sd ed).totalHours -
        (expectedWorkingDays sd ed : ℚ) * 8) := by
  have hwf : ∀ r ∈ recs, r.checkIn = none → qTruthy r.totalHours = false := by
    intro r hr hc
    have := List.all_eq_true.mp hwf0 r hr
    simpa [hc] using this
  have hsum : (recs.map (fun r =>
      if r.checkIn.isSome then r.totalHours.getD 0 else 0)).sum =
      (recs.map (fun r => r.totalHours.getD 0)).sum := by
    clear hwf0
    induction recs with
    | nil => rfl
    | cons r rs ih =>
        have hr : (if r.checkIn.isSome then r.totalHours.getD 0 else 0) =
            r.totalHours.getD 0 := by
          rcases hc : r.checkIn with _ | t
          · simpa using
              (qTruthy_false_getD (hwf r (by simp) hc)).symm
          · simp [hc]
        simp only [List.map_cons, List.sum_cons, hr,
          ih (fun r hr hc => hwf r (List.mem_cons_of_mem _ hr) hc)]
  have hloop := statsLoop_spec recs (0, 0, 0)
  refine ⟨expectedWorkingDays_spec sd ed, ?_, ?_, ?_, ?_, ?_, ?_⟩ <;>
    simp only [calculateWorkStatistics, hloop, Nat.zero_add, zero_add, hsum]
  all_goals first
    | rfl
    | exact Int.toNat_of_nonneg (le_max_left _ _)

/-- C9 witness: a Monday-to-Friday period (days 0–4, 5 expected working
days) with three worked records — one checked in at 09:10 (late) — has
`daysWorked = 3`, `daysAbsent = 2`, `daysLate = 1`, `totalHours = 24`. -/
theorem work_stats_C9_witness :
    ([(⟨some 30000, some 8⟩ : AttRow), ⟨some 33000, some 7⟩,
        ⟨some 32400, some 9⟩].all
      (fun r => r.checkIn.isSome || !qTruthy r.totalHours) = true) ∧
    ((calculateWorkStatistics [⟨some 30000, some 8⟩, ⟨some 33000, some 7⟩,
        ⟨some 32400, some 9⟩] 0 4).totalHours =
      ([(⟨some 30000, some 8⟩ : AttRow), ⟨some 33000, some 7⟩,
        ⟨some 32400, some 9⟩].map (fun r => r.totalHours.getD 0)).sum) ∧
    expectedWorkingDays 0 4 = 5 ∧
    (calculateWorkStatistics [⟨some 30000, some 8⟩, ⟨some 33000, some 7⟩,
        ⟨some 32400, some 9⟩] 0 4).daysWorked = 3 ∧
    (calculateWorkStatistics [⟨some 30000, some 8⟩, ⟨some 33000, some 7⟩,
        ⟨some 32400, some 9⟩] 0 4).daysAbsent = 2 ∧
    (calculateWorkStatistics [⟨some 30000, some 8⟩, ⟨some 33000, some 7⟩,
        ⟨some 32400, some 9⟩] 0 4).daysLate = 1 :=
  ⟨by decide,
   (work_stats_C9 [⟨some 30000, some 8⟩, ⟨some 33000, some 7⟩,
      ⟨some 32400, some 9⟩] 0 4 (by decide)).2.2.2.1,
   by decide, by decide, by decide, by decide⟩

/-! ### Payroll rule-application lemmas -/

/-- Fields `_apply_overtime_rule` never writes. -/
lemma applyOvertimeRule_untouched (rule : SalaryRule) (r : PayrollRecord) :
    (applyOvertimeRule rule r).employeeId = r.employeeId ∧
    (applyOvertimeRule rule r).periodId = r.periodId ∧
    (applyOvertimeRule rule r).totalHours = r.totalHours ∧
    (applyOvertimeRule rule r).regularHours = r.regularHours ∧
    (applyOvertimeRule rule r).overtimeHours = r.overtimeHours ∧
    (applyOvertimeRule rule r).daysWorked = r.daysWorked ∧
    (applyOvertimeRule rule r).daysAbsent = r.daysAbsent ∧
    (applyOvertimeRule rule r).daysLate = r.daysLate ∧
    (applyOvertimeRule rule r).baseSalary = r.baseSalary ∧
    (applyOvertimeRule rule r).hourlyRate = r.hourlyRate ∧
    (applyOvertimeRule rule r).regularPay = r.regularPay ∧
    (applyOvertimeRule rule r).insuranceDeduction = r.insuranceDeduction := by
  by_cases h : 0 < r.overtimeHours <;> simp [applyOvertimeRule, h]

/-- Fields `_apply_tax_rule` never writes. -/
lemma applyTaxRule_untouched (rule : SalaryRule) (r : PayrollRecord) :
    (applyTaxRule rule r).employeeId = r.employeeId ∧
    (applyTaxRule rule r).periodId = r.periodId ∧
    (applyTaxRule rule r).totalHours = r.totalHours ∧
    (applyTaxRule rule r).regularHours = r.regularHours ∧
    (applyTaxRule rule r).overtimeHours = r.overtimeHours ∧
    (applyTaxRule rule r).daysWorked = r.daysWorked ∧
    (applyTaxRule rule r).daysAbsent = r.daysAbsent ∧
    (applyTaxRule rule r).daysLate = r.daysLate ∧
    (applyTaxRule rule r).baseSalary = r.baseSalary ∧
    (applyTaxRule rule r).hourlyRate = r.hourlyRate ∧
    (applyTaxRule rule r).regularPay = r.regularPay ∧
    (applyTaxRule rule r).insuranceDeduction = r.insuranceDeduction := by
  by_cases h1 : qTruthy rule.percentage <;>
    by_cases h2 : qTruthy rule.fixedAmount <;>
      simp [applyTaxRule, h1, h2]

/-- Fields `_apply_bonus_rule` never writes. -/
lemma applyBonusRule_untouched (rule : SalaryRule) (r : PayrollRecord) :
    (applyBonusRule rule r).employeeId = r.employeeId ∧
    (applyBonusRule rule r).periodId = r.periodId ∧
    (applyBonusRule rule r).totalHours = r.totalHours ∧
    (applyBonusRule rule r).regularHours = r.regularHours ∧
    (applyBonusRule rule r).overtimeHours = r.overtimeHours ∧
    (applyBonusRule rule r).daysWorked = r.daysWorked ∧
    (applyBonusRule rule r).daysAbsent = r.daysAbsent ∧
    (applyBonusRule rule r).daysLate = r.daysLate ∧
    (applyBonusRule rule r).baseSalary = r.baseSalary ∧
    (applyBonusRule rule r).hourlyRate = r.hourlyRate ∧
    (applyBonusRule rule r).regularPay = r.regularPay ∧
    (applyBonusRule rule r).insuranceDeduction = r.insuranceDeduction := by
  by_cases h1 : qTruthy rule.fixedAmount <;>
    by_cases h2 : qTruthy rule.percentage <;>
      simp [applyBonusRule, h1, h2]

/-- Fields `_apply_deduction_rule` never writes. -/
lemma applyDeductionRule_untouched (rule : SalaryRule) (r : PayrollRecord) :
    (applyDeductionRule rule r).employeeId = r.employeeId ∧
    (applyDeductionRule rule r).periodId = r.periodId ∧
    (applyDeductionRule rule r).totalHours = r.totalHours ∧
    (applyDeductionRule rule r).regularHours = r.regularHours ∧
    (applyDeductionRule rule r).overtimeHours = r.overtimeHours ∧
    (applyDeductionRule rule r).daysWorked = r.daysWorked ∧
    (applyDeductionRule rule r).daysAbsent = r.daysAbsent ∧
    (applyDeductionRule rule r).daysLate = r.daysLate ∧
    (applyDeductionRule rule r).baseSalary = r.baseSalary ∧
    (applyDeductionRule rule r).hourlyRate = r.hourlyRate ∧
    (applyDeductionRule rule r).regularPay = r.regularPay ∧
    (applyDeductionRule rule r).insuranceDeduction = r.insuranceDeduction := by
  by_cases h1 : qTruthy rule.fixedAmount <;>
    by_cases h2 : qTruthy rule.percentage <;>
      by_cases h3 : 0 < r.daysLate <;>
        by_cases h4 : 0 < r.daysAbsent <;>
          simp [applyDeductionRule, h1, h2, h3, h4]

/-- No salary rule of any type writes the identifiers, the work
statistics, the base salary, the hourly rate, the regular pay or the
insurance deduction. -/
lemma applyOneRule_untouched (emp : Employee) (r : PayrollRecord)
    (rule : SalaryRule) :
    (applyOneRule emp r rule).employeeId = r.employeeId ∧
    (applyOneRule emp r rule).periodId = r.periodId ∧
    (applyOneRule emp r rule).totalHours = r.totalHours ∧
    (applyOneRule emp r rule).regularHours = r.regularHours ∧
    (applyOneRule emp r rule).overtimeHours = r.overtimeHours ∧
    (applyOneRule emp r rule).daysWorked = r.daysWorked ∧
    (applyOneRule emp r rule).daysAbsent = r.daysAbsent ∧
    (applyOneRule emp r rule).daysLate = r.daysLate ∧
    (applyOneRule emp r rule).baseSalary = r.baseSalary ∧
    (applyOneRule emp r rule).hourlyRate = r.hourlyRate ∧
    (applyOneRule emp r rule).regularPay = r.regularPay ∧
    (applyOneRule emp r rule).insuranceDeduction = r.insuranceDeduction := by
  unfold applyOneRule
  split_ifs
  all_goals first
    | exact ⟨rfl, rfl, rfl, rfl, rfl, rfl, rfl, rfl, rfl, rfl, rfl, rfl⟩
    | exact applyOvertimeRule_untouched rule r
    | exact applyTaxRule_untouched rule r
    | exact applyBonusRule_untouched rule r
    | exact applyDeductionRule_untouched rule r

/-- Fold form of `applyOneRule_untouched` over any rule list. -/
lemma foldl_untouched (emp : Employee) : ∀ (l : List SalaryRule)
    (r : PayrollRecord),
    (l.foldl (applyOneRule emp) r).employeeId = r.employeeId ∧
    (l.foldl (applyOneRule emp) r).periodId = r.periodId ∧
    (l.foldl (applyOneRule emp) r).totalHours = r.totalHours ∧
    (l.foldl (applyOneRule emp) r).regularHours = r.regularHours ∧
    (l.foldl (applyOneRule emp) r).overtimeHours = r.overtimeHours ∧
    (l.foldl (applyOneRule emp) r).daysWorked = r.daysWorked ∧
    (l.foldl (applyOneRule emp) r).daysAbsent = r.daysAbsent ∧
    (l.foldl (applyOneRule emp) r).daysLate = r.daysLate ∧
    (l.foldl (applyOneRule emp) r).baseSalary = r.baseSalary ∧
    (l.foldl (applyOneRule emp) r).hourlyRate = r.hourlyRate ∧
    (l.foldl (applyOneRule emp) r).regularPay = r.regularPay ∧
    (l.foldl (applyOneRule emp) r).insuranceDeduction =
      r.insuranceDeduction := by
  intro l
  induction l with
  | nil => intro r; simp
  | cons x xs ih =>
      intro r
      have h1 := applyOneRule_untouched emp r x
      have h2 := ih (applyOneRule emp r x)
      simp only [List.foldl_cons]
      exact ⟨h2.1.trans h1.1, (h2.2.1).trans h1.2.1,
        (h2.2.2.1).trans h1.2.2.1, (h2.2.2.2.1).trans h1.2.2.2.1,
        (h2.2.2.2.2.1).trans h1.2.2.2.2.1,
        (h2.2.2.2.2.2.1).trans h1.2.2.2.2.2.1,
        (h2.2.2.2.2.2.2.1).trans h1.2.2.2.2.2.2.1,
        (h2.2.2.2.2.2.2.2.1).trans h1.2.2.2.2.2.2.2.1,
        (h2.2.2.2.2.2.2.2.2.1).trans h1.2.2.2.2.2.2.2.2.1,
        (h2.2.2.2.2.2.2.2.2.2.1).trans h1.2.2.2.2.2.2.2.2.2.1,
        (h2.2.2.2.2.2.2.2.2.2.2.1).trans h1.2.2.2.2.2.2.2.2.2.2.1,
        (h2.2.2.2.2.2.2.2.2.2.2.2).trans h1.2.2.2.2.2.2.2.2.2.2.2⟩

/-- `applySalaryRules` version of the untouched-fields lemma. -/
lemma applySalaryRules_untouched (rules : List SalaryRule) (emp : Employee)
    (r : PayrollRecord) :
    (applySalaryRules rules emp r).employeeId = r.employeeId ∧
    (applySalaryRules rules emp r).periodId = r.periodId ∧
    (applySalaryRules rules emp r).totalHours = r.totalHours ∧
    (applySalaryRules rules emp r).regularHours = r.regularHours ∧
    (applySalaryRules rules emp r).overtimeHours = r.overtimeHours ∧
    (applySalaryRules rules emp r).daysWorked = r.daysWorked ∧
    (applySalaryRules rules emp r).daysAbsent = r.daysAbsent ∧
    (applySalaryRules rules emp r).daysLate = r.daysLate ∧
    (applySalaryRules rules emp r).baseSalary = r.baseSalary ∧
    (applySalaryRules rules emp r).hourlyRate = r.hourlyRate ∧
    (applySalaryRules rules emp r).regularPay = r.regularPay ∧
    (applySalaryRules rules emp r).insuranceDeduction =
      r.insuranceDeduction :=
  foldl_untouched emp (rules.filter (·.isActive)) r

/-! ### C10 — insurance deduction is never written -/

/-- The final totals step keeps `insurance_deduction`. -/
lemma finishRecord_insurance (x : PayrollRecord) :
    (finishRecord x).insuranceDeduction = x.insuranceDeduction := by
  by_cases h : 0 < x.daysLate <;> simp [finishRecord, h]

/-- The final totals step makes `total_deductions` the sum of the five
deduction fields of the finished record. -/
lemma finishRecord_totalDeductions (x : PayrollRecord) :
    (finishRecord x).totalDeductions =
      (finishRecord x).taxDeduction + (finishRecord x).insuranceDeduction +
      (finishRecord x).otherDeductions + (finishRecord x).latePenalty +
      (finishRecord x).absenceDeduction := by
  by_cases h : 0 < x.daysLate <;> simp [finishRecord, h]

/-- C10: `calculate_employee_payroll` initialises `insurance_deduction`
to `0` on fresh records and no rule type nor any calculation step ever
writes it, so a record whose stored insurance deduction was `0` (as all
records this code produces are) still has `0` afterwards, and the
computed `total_deductions` collapses to
`tax + other + latePenalty + absenceDeduction`. -/
theorem insurance_zero_C10 (emp : Employee) (recs : List AttRow)
    (sd ed : ℕ) (rules : List SalaryRule) (eid pid : ℕ)
    (existing : Option PayrollRecord)
    (hex : (existing.map (fun r => r.insuranceDeduction)).getD 0 = 0) :
    (calculateEmployeePayroll emp recs sd ed rules eid pid
        existing).insuranceDeduction = 0 ∧
    (∀ (rules' : List SalaryRule) (s : PayrollRecord),
      (applySalaryRules rules' emp s).insuranceDeduction =
        s.insuranceDeduction) ∧
    (calculateEmployeePayroll emp recs sd ed rules eid pid
        existing).totalDeductions =
      (calculateEmployeePayroll emp recs sd ed rules eid pid
        existing).taxDeduction +
      (calculateEmployeePayroll emp recs sd ed rules eid pid
        existing).otherDeductions +
      (calculateEmployeePayroll emp recs sd ed rules eid pid
        existing).latePenalty +
      (calculateEmployeePayroll emp recs sd ed rules eid pid
        existing).absenceDeduction := by
  have hbase : (existing.getD (freshPayrollRecord eid pid)).insuranceDeduction
      = 0 := by
    cases existing with
    | none => rfl
    | some r => simpa using hex
  have hins : (calculateEmployeePayroll emp recs sd ed rules eid pid
      existing).insuranceDeduction = 0 := by
    unfold calculateEmployeePayroll
    rw [finishRecord_insurance,
      (applySalaryRules_untouched rules emp _).2.2.2.2.2.2.2.2.2.2.2]
    exact hbase
  refine ⟨hins, fun rules' s =>
    (applySalaryRules_untouched rules' emp s).2.2.2.2.2.2.2.2.2.2.2, ?_⟩
  have := finishRecord_totalDeductions
    (applySalaryRules rules emp (prepRecord emp
      (calculateWorkStatistics recs sd ed)
      (existing.getD (freshPayrollRecord eid pid))))
  unfold calculateEmployeePayroll at hins ⊢
  rw [this, hins]
  ring

/-- C10 witness: an employee with an already-stored record carrying
`insurance_deduction = 0` and one active tax rule still gets
`insurance_deduction = 0` and the four-term `total_deductions`. -/
theorem insurance_zero_C10_witness :
    ((some (freshPayrollRecord 1 2)).map
        (fun r => r.insuranceDeduction)).getD 0 = 0 ∧
    (calculateEmployeePayroll ⟨some 160, none, none⟩
        [⟨some 30000, some 8⟩] 0 0
        [⟨"tax", none, none, some 10, true, none, none, true⟩] 1 2
        (some (freshPayrollRecord 1 2))).insuranceDeduction = 0 ∧
    (calculateEmployeePayroll ⟨some 160, none, none⟩
        [⟨some 30000, some 8⟩] 0 0
        [⟨"tax", none, none, some 10, true, none, none, true⟩] 1 2
        (some (freshPayrollRecord 1 2))).totalDeductions =
      (calculateEmployeePayroll ⟨some 160, none, none⟩
        [⟨some 30000, some 8⟩] 0 0
        [⟨"tax", none, none, some 10, true, none, none, true⟩] 1 2
        (some (freshPayrollRecord 1 2))).taxDeduction +
      (calculateEmployeePayroll ⟨some 160, none, none⟩
        [⟨some 30000, some 8⟩] 0 0
        [⟨"tax", none, none, some 10, true, none, none, true⟩] 1 2
        (some (freshPayrollRecord 1 2))).otherDeductions +
      (calculateEmployeePayroll ⟨some 160, none, none⟩
        [⟨some 30000, some 8⟩] 0 0
        [⟨"tax", none, none, some 10, true, none, none, true⟩] 1 2
        (some (freshPayrollRecord 1 2))).latePenalty +
      (calculateEmployeePayroll ⟨some 160, none, none⟩
        [⟨some 30000, some 8⟩] 0 0
        [⟨"tax", none, none, some 10, true, none, none, true⟩] 1 2
        (some (freshPayrollRecord 1 2))).absenceDeduction := by
  have h := insurance_zero_C10 ⟨some 160, none, none⟩
    [⟨some 30000, some 8⟩] 0 0
    [⟨"tax", none, none, some 10, true, none, none, true⟩] 1 2
    (some (freshPayrollRecord 1 2)) (by decide)
  exact ⟨by decide, h.1, h.2.2⟩

/-! ### C2 — deduction-rule effects -/

/-- The final totals step: `late_penalty` is overwritten to
`days_late * 50` whenever `days_late > 0`, and the statistics,
`absence_deduction` and `hourly_rate` are untouched. -/
lemma finishRecord_fields (x : PayrollRecord) :
    (finishRecord x).latePenalty =
      (if 0 < x.daysLate then (x.daysLate : ℚ) * 50 else x.latePenalty) ∧
    (finishRecord x).daysLate = x.daysLate ∧
    (finishRecord x).daysAbsent = x.daysAbsent ∧
    (finishRecord x).absenceDeduction = x.absenceDeduction ∧
    (finishRecord x).hourlyRate = x.hourlyRate := by
  by_cases h : 0 < x.daysLate <;> simp [finishRecord, h]

/-- `_apply_overtime_rule` keeps `absence_deduction`. -/
lemma applyOvertimeRule_ab (rule : SalaryRule) (r : PayrollRecord) :
    (applyOvertimeRule rule r).absenceDeduction = r.absenceDeduction := by
  by_cases h : 0 < r.overtimeHours <;> simp [applyOvertimeRule, h]

/-- `_apply_tax_rule` keeps `absence_deduction`. -/
lemma applyTaxRule_ab (rule : SalaryRule) (r : PayrollRecord) :
    (applyTaxRule rule r).absenceDeduction = r.absenceDeduction := by
  by_cases h1 : qTruthy rule.percentage <;>
    by_cases h2 : qTruthy rule.fixedAmount <;> simp [applyTaxRule, h1, h2]

/-- `_apply_bonus_rule` keeps `absence_deduction`. -/
lemma applyBonusRule_ab (rule : SalaryRule) (r : PayrollRecord) :
    (applyBonusRule rule r).absenceDeduction = r.absenceDeduction := by
  by_cases h1 : qTruthy rule.fixedAmount <;>
    by_cases h2 : qTruthy rule.percentage <;> simp [applyBonusRule, h1, h2]

/-- `_apply_deduction_rule` leaves `absence_deduction` alone (when
`days_absent = 0`) or overwrites it with `days_absent * hourly_rate * 8`. -/
lemma applyDeductionRule_ab (rule : SalaryRule) (r : PayrollRecord) :
    (applyDeductionRule rule r).absenceDeduction = r.absenceDeduction ∨
    (applyDeductionRule rule r).absenceDeduction =
      (r.daysAbsent : ℚ) * (r.hourlyRate * 8) := by
  by_cases h1 : qTruthy rule.fixedAmount <;>
    by_cases h2 : qTruthy rule.percentage <;>
      by_cases h3 : 0 < r.daysLate <;>
        by_cases h4 : 0 < r.daysAbsent <;>
          simp [applyDeductionRule, h1, h2, h3, h4]

/-- A rule application either leaves `absence_deduction` alone or
overwrites it with `days_absent * hourly_rate * 8`. -/
lemma applyOneRule_absence (emp : Employee) (s : PayrollRecord)
    (rule : SalaryRule) :
    (applyOneRule emp s rule).absenceDeduction = s.absenceDeduction ∨
    (applyOneRule emp s rule).absenceDeduction =
      (s.daysAbsent : ℚ) * (s.hourlyRate * 8) := by
  unfold applyOneRule
  split_ifs
  all_goals first
    | exact Or.inl rfl
    | exact Or.inl (applyOvertimeRule_ab rule s)
    | exact Or.inl (applyTaxRule_ab rule s)
    | exact Or.inl (applyBonusRule_ab rule s)
    | exact applyDeductionRule_ab rule s

/-- Once `absence_deduction` holds the `days_absent * hourly_rate * 8`
value, any further rules keep it there (each deduction rule rewrites
the same value; nothing else touches it). -/
lemma foldl_absence_inv (emp : Employee) : ∀ (l : List SalaryRule)
    (s : PayrollRecord),
    s.absenceDeduction = (s.daysAbsent : ℚ) * (s.hourlyRate * 8) →
    (l.foldl (applyOneRule emp) s).absenceDeduction =
      (s.daysAbsent : ℚ) * (s.hourlyRate * 8) := by
  intro l
  induction l with
  | nil => intro s h; simpa using h
  | cons x xs ih =>
      intro s h
      have hu := applyOneRule_untouched emp s x
      have hs' : (applyOneRule emp s x).absenceDeduction =
          ((applyOneRule emp s x).daysAbsent : ℚ) *
            ((applyOneRule emp s x).hourlyRate * 8) := by
        rcases applyOneRule_absence emp s x with ha | ha <;>
          rw [ha, hu.2.2.2.2.2.2.1, hu.2.2.2.2.2.2.2.2.2.1]
        exact h
      simp only [List.foldl_cons]
      rw [ih (applyOneRule emp s x) hs', hu.2.2.2.2.2.2.1,
        hu.2.2.2.2.2.2.2.2.2.1]

/-- If some rule of the list is an applicable deduction rule and
`days_absent > 0`, the fold ends with `absence_deduction =
days_absent * hourly_rate * 8`. -/
lemma foldl_absence (emp : Employee) : ∀ (l : List SalaryRule)
    (s : PayrollRecord),
    l.any (fun rule => ruleAppliesToEmployee rule emp &&
      (rule.ruleType == "deduction")) = true →
    0 < s.daysAbsent →
    (l.foldl (applyOneRule emp) s).absenceDeduction =
      (s.daysAbsent : ℚ) * (s.hourlyRate * 8) := by
  intro l
  induction l with
  | nil => intro s h; simp at h
  | cons x xs ih =>
      intro s hany hda
      have hu := applyOneRule_untouched emp s x
      simp only [List.foldl_cons]
      by_cases hx : ruleAppliesToEmployee x emp ∧ x.ruleType = "deduction"
      · have hset : (applyOneRule emp s x).absenceDeduction =
            (s.daysAbsent : ℚ) * (s.hourlyRate * 8) := by
          unfold applyOneRule
          rw [if_neg (by simp [hx.1]), if_neg (by simp [hx.2]),
            if_neg (by simp [hx.2]), if_neg (by simp [hx.2]),
            if_pos (by simp [hx.2])]
          by_cases h1 : qTruthy x.fixedAmount <;>
            by_cases h2 : qTruthy x.percentage <;>
              by_cases h3 : 0 < s.daysLate <;>
                simp [applyDeductionRule, h1, h2, h3, hda]
        have := foldl_absence_inv emp xs (applyOneRule emp s x)
          (by rw [hset, hu.2.2.2.2.2.2.1, hu.2.2.2.2.2.2.2.2.2.1])
        rw [this, hu.2.2.2.2.2.2.1, hu.2.2.2.2.2.2.2.2.2.1]
      · have hxs : xs.any (fun rule => ruleAppliesToEmployee rule emp &&
            (rule.ruleType == "deduction")) = true := by
          rcases List.any_eq_true.mp hany with ⟨r, hr, hpr⟩
          have hpr' : ruleAppliesToEmployee r emp = true ∧
              r.ruleType = "deduction" := by simpa using hpr
          rcases List.mem_cons.mp hr with rfl | hr
          · exact absurd hpr' hx
          · exact List.any_eq_true.mpr ⟨r, hr, hpr⟩
        have hda' : 0 < (applyOneRule emp s x).daysAbsent := by
          rw [hu.2.2.2.2.2.2.1]
          exact hda
        rw [ih (applyOneRule emp s x) hxs hda', hu.2.2.2.2.2.2.1,
          hu.2.2.2.2.2.2.2.2.2.1]

/-- C2 counterexample: one active `deduction` rule with
`fixed_amount = 10` applies to everyone, the employee has one late day
— yet after `calculate_employee_payroll` completes, `late_penalty` is
`50` (the hard-coded `$50`-per-late-day overwrite at lines 112-114 runs
*after* the rules), not `days_late * fixed_amount = 10`. -/
theorem deduction_rule_C2_counterexample :
    (calculateEmployeePayroll ⟨some 160, none, none⟩ [⟨some 33000, some 8⟩]
        7 7 [⟨"deduction", none, some 10, none, true, none, none, true⟩]
        1 1 none).daysLate = 1 ∧
    (calculateEmployeePayroll ⟨some 160, none, none⟩ [⟨some 33000, some 8⟩]
        7 7 [⟨"deduction", none, some 10, none, true, none, none, true⟩]
        1 1 none).latePenalty = 50 ∧
    ¬ ((calculateEmployeePayroll ⟨some 160, none, none⟩
        [⟨some 33000, some 8⟩]
        7 7 [⟨"deduction", none, some 10, none, true, none, none, true⟩]
        1 1 none).latePenalty =
      ((calculateEmployeePayroll ⟨some 160, none, none⟩
        [⟨some 33000, some 8⟩]
        7 7 [⟨"deduction", none, some 10, none, true, none, none, true⟩]
        1 1 none).daysLate : ℚ) * 10) := by
  refine ⟨by decide, ?_, ?_⟩ <;>
    · simp +decide only [calculateEmployeePayroll, prepRecord, finishRecord,
        applySalaryRules, applyOneRule, applyDeductionRule,
        calculateWorkStatistics, statsLoop, expectedWorkingDays,
        countWeekdays, calculateHourlyRate, ruleAppliesToEmployee, qTruthy,
        qOr, freshPayrollRecord, List.foldl, List.filter, List.any]
      norm_num

/-- C2 (amended): with at least one applicable active deduction rule,
after `calculate_employee_payroll` completes the record satisfies: if
`daysLate > 0` then `latePenalty = daysLate * 50` (the flat `$50`
overwrite at lines 112-114 replaces the rule's `daysLate *
(fixedAmount ?? 0)`, which only holds *inside* `_apply_deduction_rule`),
and if `daysAbsent > 0` then `absenceDeduction = daysAbsent *
hourlyRate * 8`; both fields are overwritten, not accumulated, by each
deduction rule. -/
theorem deduction_rule_C2 (emp : Employee) (recs : List AttRow)
    (sd ed : ℕ) (rules : List SalaryRule) (eid pid : ℕ)
    (existing : Option PayrollRecord)
    (hd : rules.any (fun rule => rule.isActive &&
      (ruleAppliesToEmployee rule emp && (rule.ruleType == "deduction"))) =
      true) :
    (0 < (calculateEmployeePayroll emp recs sd ed rules eid pid
        existing).daysLate →
      (calculateEmployeePayroll emp recs sd ed rules eid pid
        existing).latePenalty =
        ((calculateEmployeePayroll emp recs sd ed rules eid pid
          existing).daysLate : ℚ) * 50) ∧
    (0 < (calculateEmployeePayroll emp recs sd ed rules eid pid
        existing).daysAbsent →
      (calculateEmployeePayroll emp recs sd ed rules eid pid
        existing).absenceDeduction =
        ((calculateEmployeePayroll emp recs sd ed rules eid pid
          existing).daysAbsent : ℚ) *
        ((calculateEmployeePayroll emp recs sd ed rules eid pid
          existing).hourlyRate * 8)) ∧
    (∀ (rule : SalaryRule) (s : PayrollRecord), 0 < s.daysLate →
      (applyDeductionRule rule s).latePenalty =
        (s.daysLate : ℚ) * qOr rule.fixedAmount 0) ∧
    (∀ (rule : SalaryRule) (s : PayrollRecord), 0 < s.daysAbsent →
      (applyDeductionRule rule s).absenceDeduction =
        (s.daysAbsent : ℚ) * (s.hourlyRate * 8)) := by
  have hlp : ∀ (rule : SalaryRule) (s : PayrollRecord), 0 < s.daysLate →
      (applyDeductionRule rule s).latePenalty =
        (s.daysLate : ℚ) * qOr rule.fixedAmount 0 := by
    intro rule s h3
    by_cases h1 : qTruthy rule.fixedAmount <;>
      by_cases h2 : qTruthy rule.percentage <;>
        by_cases h4 : 0 < s.daysAbsent <;>
          simp [applyDeductionRule, h1, h2, h3, h4]
  have hab : ∀ (rule : SalaryRule) (s : PayrollRecord), 0 < s.daysAbsent →
      (applyDeductionRule rule s).absenceDeduction =
        (s.daysAbsent : ℚ) * (s.hourlyRate * 8) := by
    intro rule s h4
    by_cases h1 : qTruthy rule.fixedAmount <;>
      by_cases h2 : qTruthy rule.percentage <;>
        by_cases h3 : 0 < s.daysLate <;>
          simp [applyDeductionRule, h1, h2, h3, h4]
  have hff := finishRecord_fields
    (applySalaryRules rules emp (prepRecord emp
      (calculateWorkStatistics recs sd ed)
      (existing.getD (freshPayrollRecord eid pid))))
  have hfu := applySalaryRules_untouched rules emp
    (prepRecord emp (calculateWorkStatistics recs sd ed)
      (existing.getD (freshPayrollRecord eid pid)))
  refine ⟨?_, ?_, hlp, hab⟩
  · intro h
    unfold calculateEmployeePayroll at h ⊢
    rw [hff.2.1] at h
    rw [hff.1, if_pos h, hff.2.1]
  · intro h
    unfold calculateEmployeePayroll at h ⊢
    rw [hff.2.2.1, hfu.2.2.2.2.2.2.1] at h
    have hfilter : (rules.filter (·.isActive)).any
        (fun rule => ruleAppliesToEmployee rule emp &&
          (rule.ruleType == "deduction")) = true := by
      rcases List.any_eq_true.mp hd with ⟨r, hr, hpr⟩
      have hpr' : r.isActive = true ∧ (ruleAppliesToEmployee r emp = true ∧
          r.ruleType = "deduction") := by simpa using hpr
      refine List.any_eq_true.mpr ⟨r, List.mem_filter.mpr ⟨hr, ?_⟩, ?_⟩
      · simpa using hpr'.1
      · simp [hpr'.2.1, hpr'.2.2]
    have := foldl_absence emp (rules.filter (·.isActive))
      (prepRecord emp (calculateWorkStatistics recs sd ed)
        (existing.getD (freshPayrollRecord eid pid))) hfilter h
    rw [hff.2.2.2.1, hff.2.2.1, hff.2.2.2.2]
    unfold applySalaryRules at hfu ⊢
    rw [this, hfu.2.2.2.2.2.2.1, hfu.2.2.2.2.2.2.2.2.2.1]

/-- C2 witness: deduction rule with `fixed_amount = 20`, one late day
and four absent days over a five-weekday period — `latePenalty =
daysLate * 50` and `absenceDeduction = daysAbsent * hourlyRate * 8`. -/
theorem deduction_rule_C2_witness :
    ([(⟨"deduction", none, some 20, none, true, none, none, true⟩ :
        SalaryRule)].any (fun rule => rule.isActive &&
      (ruleAppliesToEmployee rule ⟨some 160, none, none⟩ &&
        (rule.ruleType == "deduction"))) = true) ∧
    (calculateEmployeePayroll ⟨some 160, none, none⟩ [⟨some 33000, some 8⟩]
        0 4 [⟨"deduction", none, some 20, none, true, none, none, true⟩]
        1 1 none).latePenalty =
      ((calculateEmployeePayroll ⟨some 160, none, none⟩
        [⟨some 33000, some 8⟩]
        0 4 [⟨"deduction", none, some 20, none, true, none, none, true⟩]
        1 1 none).daysLate : ℚ) * 50 ∧
    (calculateEmployeePayroll ⟨some 160, none, none⟩ [⟨some 33000, some 8⟩]
        0 4 [⟨"deduction", none, some 20, none, true, none, none, true⟩]
        1 1 none).absenceDeduction =
      ((calculateEmployeePayroll ⟨some 160, none, none⟩
        [⟨some 33000, some 8⟩]
        0 4 [⟨"deduction", none, some 20, none, true, none, none, true⟩]
        1 1 none).daysAbsent : ℚ) *
      ((calculateEmployeePayroll ⟨some 160, none, none⟩
        [⟨some 33000, some 8⟩]
        0 4 [⟨"deduction", none, some 20, none, true, none, none, true⟩]
        1 1 none).hourlyRate * 8) :=
  ⟨by decide,
   (deduction_rule_C2 ⟨some 160, none, none⟩ [⟨some 33000, some 8⟩] 0 4
     [⟨"deduction", none, some 20, none, true, none, none, true⟩] 1 1 none
     (by decide)).1 (by decide),
   (deduction_rule_C2 ⟨some 160, none, none⟩ [⟨some 33000, some 8⟩] 0 4
     [⟨"deduction", none, some 20, none, true, none, none, true⟩] 1 1 none
     (by decide)).2.1 (by decide)⟩

/-! ### C1 — idempotence analysis -/

/-- `_apply_overtime_rule` on mask-equal records: masks stay equal and
the three derived deduction fields are untouched on both sides. -/
lemma applyOvertimeRule_agree (rule : SalaryRule) (a b : PayrollRecord)
    (h : maskDerived a = maskDerived b) :
    maskDerived (applyOvertimeRule rule a) =
      maskDerived (applyOvertimeRule rule b) ∧
    (applyOvertimeRule rule a).taxDeduction = a.taxDeduction ∧
    (applyOvertimeRule rule b).taxDeduction = b.taxDeduction ∧
    (applyOvertimeRule rule a).latePenalty = a.latePenalty ∧
    (applyOvertimeRule rule b).latePenalty = b.latePenalty ∧
    (applyOvertimeRule rule a).absenceDeduction = a.absenceDeduction ∧
    (applyOvertimeRule rule b).absenceDeduction = b.absenceDeduction := by
  obtain ⟨e, p, th, rh, oh, dw, da, dl, bs, hr, rp, op, bo, tx, ins, od,
    lp, ab, gs, tds, ns⟩ := a
  obtain ⟨e', p', th', rh', oh', dw', da', dl', bs', hr', rp', op', bo',
    tx', ins', od', lp', ab', gs', tds', ns'⟩ := b
  simp only [maskDerived, PayrollRecord.mk.injEq, eq_self_iff_true,
    and_true, true_and] at h
  obtain ⟨rfl, rfl, rfl, rfl, rfl, rfl, rfl, rfl, rfl, rfl, rfl, rfl, rfl,
    rfl, rfl⟩ := h
  by_cases h0 : 0 < oh <;> simp [applyOvertimeRule, maskDerived, h0]

/-- `_apply_tax_rule` on mask-equal records: masks stay equal, the two
sides write the same `tax_deduction` or both keep it, and
`late_penalty`/`absence_deduction` are untouched. -/
lemma applyTaxRule_agree (rule : SalaryRule) (a b : PayrollRecord)
    (h : maskDerived a = maskDerived b) :
    maskDerived (applyTaxRule rule a) = maskDerived (applyTaxRule rule b) ∧
    ((applyTaxRule rule a).taxDeduction = (applyTaxRule rule b).taxDeduction ∨
      ((applyTaxRule rule a).taxDeduction = a.taxDeduction ∧
        (applyTaxRule rule b).taxDeduction = b.taxDeduction)) ∧
    (applyTaxRule rule a).latePenalty = a.latePenalty ∧
    (applyTaxRule rule b).latePenalty = b.latePenalty ∧
    (applyTaxRule rule a).absenceDeduction = a.absenceDeduction ∧
    (applyTaxRule rule b).absenceDeduction = b.absenceDeduction := by
  obtain ⟨e, p, th, rh, oh, dw, da, dl, bs, hr, rp, op, bo, tx, ins, od,
    lp, ab, gs, tds, ns⟩ := a
  obtain ⟨e', p', th', rh', oh', dw', da', dl', bs', hr', rp', op', bo',
    tx', ins', od', lp', ab', gs', tds', ns'⟩ := b
  simp only [maskDerived, PayrollRecord.mk.injEq, eq_self_iff_true,
    and_true, true_and] at h
  obtain ⟨rfl, rfl, rfl, rfl, rfl, rfl, rfl, rfl, rfl, rfl, rfl, rfl, rfl,
    rfl, rfl⟩ := h
  by_cases h1 : qTruthy rule.percentage <;>
    by_cases h2 : qTruthy rule.fixedAmount <;>
      simp [applyTaxRule, maskDerived, h1, h2]

/-- `_apply_bonus_rule` on mask-equal records: masks stay equal and the
three derived deduction fields are untouched. -/
lemma applyBonusRule_agree (rule : SalaryRule) (a b : PayrollRecord)
    (h : maskDerived a = maskDerived b) :
    maskDerived (applyBonusRule rule a) =
      maskDerived (applyBonusRule rule b) ∧
    (applyBonusRule rule a).taxDeduction = a.taxDeduction ∧
    (applyBonusRule rule b).taxDeduction = b.taxDeduction ∧
    (applyBonusRule rule a).latePenalty = a.latePenalty ∧
    (applyBonusRule rule b).latePenalty = b.latePenalty ∧
    (applyBonusRule rule a).absenceDeduction = a.absenceDeduction ∧
    (applyBonusRule rule b).absenceDeduction = b.absenceDeduction := by
  obtain ⟨e, p, th, rh, oh, dw, da, dl, bs, hr, rp, op, bo, tx, ins, od,
    lp, ab, gs, tds, ns⟩ := a
  obtain ⟨e', p', th', rh', oh', dw', da', dl', bs', hr', rp', op', bo',
    tx', ins', od', lp', ab', gs', tds', ns'⟩ := b
  simp only [maskDerived, PayrollRecord.mk.injEq, eq_self_iff_true,
    and_true, true_and] at h
  obtain ⟨rfl, rfl, rfl, rfl, rfl, rfl, rfl, rfl, rfl, rfl, rfl, rfl, rfl,
    rfl, rfl⟩ := h
  by_cases h1 : qTruthy rule.fixedAmount <;>
    by_cases h2 : qTruthy rule.percentage <;>
      simp [applyBonusRule, maskDerived, h1, h2]

/-- `_apply_deduction_rule` on mask-equal records: masks stay equal,
`tax_deduction` is untouched, and each of `late_penalty` and
`absence_deduction` is either written identically or kept on both
sides. -/
lemma applyDeductionRule_agree (rule : SalaryRule) (a b : PayrollRecord)
    (h : maskDerived a = maskDerived b) :
    maskDerived (applyDeductionRule rule a) =
      maskDerived (applyDeductionRule rule b) ∧
    (applyDeductionRule rule a).taxDeduction = a.taxDeduction ∧
    (applyDeductionRule rule b).taxDeduction = b.taxDeduction ∧
    ((applyDeductionRule rule a).latePenalty =
        (applyDeductionRule rule b).latePenalty ∨
      ((applyDeductionRule rule a).latePenalty = a.latePenalty ∧
        (applyDeductionRule rule b).latePenalty = b.latePenalty)) ∧
    ((applyDeductionRule rule a).absenceDeduction =
        (applyDeductionRule rule b).absenceDeduction ∨
      ((applyDeductionRule rule a).absenceDeduction = a.absenceDeduction ∧
        (applyDeductionRule rule b).absenceDeduction = b.absenceDeduction)) := by
  obtain ⟨e, p, th, rh, oh, dw, da, dl, bs, hr, rp, op, bo, tx, ins, od,
    lp, ab, gs, tds, ns⟩ := a
  obtain ⟨e', p', th', rh', oh', dw', da', dl', bs', hr', rp', op', bo',
    tx', ins', od', lp', ab', gs', tds', ns'⟩ := b
  simp only [maskDerived, PayrollRecord.mk.injEq, eq_self_iff_true,
    and_true, true_and] at h
  obtain ⟨rfl, rfl, rfl, rfl, rfl, rfl, rfl, rfl, rfl, rfl, rfl, rfl, rfl,
    rfl, rfl⟩ := h
  by_cases h1 : qTruthy rule.fixedAmount <;>
    by_cases h2 : qTruthy rule.percentage <;>
      by_cases h3 : 0 < dl <;>
        by_cases h4 : 0 < da <;>
          simp [applyDeductionRule, maskDerived, h1, h2, h3, h4]

/-- A single rule application sends mask-equal records to mask-equal
records, and for each of the three rule-written derived fields either
both runs compute the same value or both leave the field untouched. -/
lemma applyOneRule_agree (emp : Employee) (rule : SalaryRule)
    (a b : PayrollRecord) (h : maskDerived a = maskDerived b) :
    maskDerived (applyOneRule emp a rule) =
      maskDerived (applyOneRule emp b rule) ∧
    ((applyOneRule emp a rule).taxDeduction =
        (applyOneRule emp b rule).taxDeduction ∨
      ((applyOneRule emp a rule).taxDeduction = a.taxDeduction ∧
        (applyOneRule emp b rule).taxDeduction = b.taxDeduction)) ∧
    ((applyOneRule emp a rule).latePenalty =
        (applyOneRule emp b rule).latePenalty ∨
      ((applyOneRule emp a rule).latePenalty = a.latePenalty ∧
        (applyOneRule emp b rule).latePenalty = b.latePenalty)) ∧
    ((applyOneRule emp a rule).absenceDeduction =
        (applyOneRule emp b rule).absenceDeduction ∨
      ((applyOneRule emp a rule).absenceDeduction = a.absenceDeduction ∧
        (applyOneRule emp b rule).absenceDeduction = b.absenceDeduction)) := by
  have ho := applyOvertimeRule_agree rule a b h
  have ht := applyTaxRule_agree rule a b h
  have hb := applyBonusRule_agree rule a b h
  have hd := applyDeductionRule_agree rule a b h
  unfold applyOneRule
  split_ifs
  all_goals first
    | exact ⟨h, Or.inr ⟨rfl, rfl⟩, Or.inr ⟨rfl, rfl⟩, Or.inr ⟨rfl, rfl⟩⟩
    | exact ⟨ho.1, Or.inr ⟨ho.2.1, ho.2.2.1⟩, Or.inr ⟨ho.2.2.2.1,
        ho.2.2.2.2.1⟩, Or.inr ⟨ho.2.2.2.2.2.1, ho.2.2.2.2.2.2⟩⟩
    | exact ⟨ht.1, ht.2.1, Or.inr ⟨ht.2.2.1, ht.2.2.2.1⟩,
        Or.inr ⟨ht.2.2.2.2.1, ht.2.2.2.2.2⟩⟩
    | exact ⟨hb.1, Or.inr ⟨hb.2.1, hb.2.2.1⟩, Or.inr ⟨hb.2.2.2.1,
        hb.2.2.2.2.1⟩, Or.inr ⟨hb.2.2.2.2.2.1, hb.2.2.2.2.2.2⟩⟩
    | exact ⟨hd.1, Or.inr ⟨hd.2.1, hd.2.2.1⟩, hd.2.2.2.1, hd.2.2.2.2⟩

/-- Fold form of `applyOneRule_agree`: two rule folds started from
mask-equal records end mask-equal, and each of the three rule-written
derived fields is either computed identically or carried through
unchanged on both sides. -/
lemma foldl_agree (emp : Employee) : ∀ (l : List SalaryRule)
    (a b : PayrollRecord), maskDerived a = maskDerived b →
    maskDerived (l.foldl (applyOneRule emp) a) =
      maskDerived (l.foldl (applyOneRule emp) b) ∧
    ((l.foldl (applyOneRule emp) a).taxDeduction =
        (l.foldl (applyOneRule emp) b).taxDeduction ∨
      ((l.foldl (applyOneRule emp) a).taxDeduction = a.taxDeduction ∧
        (l.foldl (applyOneRule emp) b).taxDeduction = b.taxDeduction)) ∧
    ((l.foldl (applyOneRule emp) a).latePenalty =
        (l.foldl (applyOneRule emp) b).latePenalty ∨
      ((l.foldl (applyOneRule emp) a).latePenalty = a.latePenalty ∧
        (l.foldl (applyOneRule emp) b).latePenalty = b.latePenalty)) ∧
    ((l.foldl (applyOneRule emp) a).absenceDeduction =
        (l.foldl (applyOneRule emp) b).absenceDeduction ∨
      ((l.foldl (applyOneRule emp) a).absenceDeduction =
          a.absenceDeduction ∧
        (l.foldl (applyOneRule emp) b).absenceDeduction =
          b.absenceDeduction)) := by
  intro l
  induction l with
  | nil =>
      intro a b h
      exact ⟨h, Or.inr ⟨rfl, rfl⟩, Or.inr ⟨rfl, rfl⟩, Or.inr ⟨rfl, rfl⟩⟩
  | cons x xs ih =>
      intro a b h
      have hstep := applyOneRule_agree emp x a b h
      have hrec := ih (applyOneRule emp a x) (applyOneRule emp b x) hstep.1
      simp only [List.foldl_cons]
      refine ⟨hrec.1, ?_, ?_, ?_⟩
      · rcases hrec.2.1 with he | ⟨ea, eb⟩
        · exact Or.inl he
        · rcases hstep.2.1 with hs | ⟨sa, sb⟩
          · exact Or.inl ((ea.trans hs).trans eb.symm)
          · exact Or.inr ⟨ea.trans sa, eb.trans sb⟩
      · rcases hrec.2.2.1 with he | ⟨ea, eb⟩
        · exact Or.inl he
        · rcases hstep.2.2.1 with hs | ⟨sa, sb⟩
          · exact Or.inl ((ea.trans hs).trans eb.symm)
          · exact Or.inr ⟨ea.trans sa, eb.trans sb⟩
      · rcases hrec.2.2.2 with he | ⟨ea, eb⟩
        · exact Or.inl he
        · rcases hstep.2.2.2 with hs | ⟨sa, sb⟩
          · exact Or.inl ((ea.trans hs).trans eb.symm)
          · exact Or.inr ⟨ea.trans sa, eb.trans sb⟩

/-- `_apply_overtime_rule` and `_apply_tax_rule` keep `bonus` and
`other_deductions`; `_apply_bonus_rule` and `_apply_deduction_rule`
also do when neither `fixed_amount` nor `percentage` is truthy. -/
lemma applyOneRule_bonus_other (emp : Employee) (x : SalaryRule)
    (s : PayrollRecord) (hact : x.isActive = true)
    (hx : noAccumRule emp x = true) :
    (applyOneRule emp s x).bonus = s.bonus ∧
    (applyOneRule emp s x).otherDeductions = s.otherDeductions := by
  by_cases happ : ruleAppliesToEmployee x emp = true
  · by_cases hbd : x.ruleType = "bonus" ∨ x.ruleType = "deduction"
    · have hun : qTruthy x.fixedAmount = false ∧
          qTruthy x.percentage = false := by
        simp only [noAccumRule, hact, happ, Bool.true_and,
          Bool.or_eq_true, Bool.not_eq_true', Bool.and_eq_true] at hx
        rcases hx with hx | hx
        · rcases hbd with hbd | hbd <;> simp [hbd] at hx
        · exact hx
      rcases hbd with hbd | hbd
      · unfold applyOneRule
        rw [if_neg (by simp [happ]), if_neg (by simp [hbd]),
          if_neg (by simp [hbd]), if_pos (by simp [hbd])]
        simp [applyBonusRule, hun.1, hun.2]
      · unfold applyOneRule
        rw [if_neg (by simp [happ]), if_neg (by simp [hbd]),
          if_neg (by simp [hbd]), if_neg (by simp [hbd]),
          if_pos (by simp [hbd])]
        constructor <;> (by_cases h3 : 0 < s.daysLate <;>
          by_cases h4 : 0 < s.daysAbsent <;>
            simp [applyDeductionRule, hun.1, hun.2, h3, h4])
    · push_neg at hbd
      unfold applyOneRule
      rw [if_neg (by simp [happ])]
      by_cases ho : x.ruleType = "overtime"
      · rw [if_pos (by simp [ho])]
        constructor <;> (by_cases h : 0 < s.overtimeHours <;>
          simp [applyOvertimeRule, h])
      · rw [if_neg (by simp [ho])]
        by_cases ht : x.ruleType = "tax"
        · rw [if_pos (by simp [ht])]
          constructor <;> (by_cases ha : qTruthy x.percentage <;>
            by_cases hb : qTruthy x.fixedAmount <;>
              simp [applyTaxRule, ha, hb])
        · rw [if_neg (by simp [ht]), if_neg (by simp [hbd.1]),
            if_neg (by simp [hbd.2])]
          exact ⟨rfl, rfl⟩
  · unfold applyOneRule
    rw [if_pos (by simpa using happ)]
    exact ⟨rfl, rfl⟩

/-- Under `noAccumRule` for every (active) rule of the list, the fold
leaves `bonus` and `other_deductions` unchanged. -/
lemma foldl_bonus_other (emp : Employee) : ∀ (l : List SalaryRule)
    (s : PayrollRecord),
    (∀ r ∈ l, r.isActive = true ∧ noAccumRule emp r = true) →
    (l.foldl (applyOneRule emp) s).bonus = s.bonus ∧
    (l.foldl (applyOneRule emp) s).otherDeductions = s.otherDeductions := by
  intro l
  induction l with
  | nil => intro s _; exact ⟨rfl, rfl⟩
  | cons x xs ih =>
      intro s hl
      have hstep := applyOneRule_bonus_other emp x s
        (hl x (List.mem_cons_self _ _)).1 (hl x (List.mem_cons_self _ _)).2
      have hrec := ih (applyOneRule emp s x)
        (fun r hr => hl r (List.mem_cons_of_mem _ hr))
      simp only [List.foldl_cons]
      exact ⟨hrec.1.trans hstep.1, hrec.2.trans hstep.2⟩

/-- The final totals step keeps the identifiers, `tax_deduction`,
`bonus` and `other_deductions`. -/
lemma finishRecord_keeps (x : PayrollRecord) :
    (finishRecord x).employeeId = x.employeeId ∧
    (finishRecord x).periodId = x.periodId ∧
    (finishRecord x).taxDeduction = x.taxDeduction ∧
    (finishRecord x).bonus = x.bonus ∧
    (finishRecord x).otherDeductions = x.otherDeductions := by
  by_cases h : 0 < x.daysLate <;> simp [finishRecord, h]

/-- The statistics/base-pay step maps records agreeing on the fields it
does not overwrite to mask-equal records. -/
lemma prep_mask_congr (emp : Employee) (st : WorkStats)
    (y base : PayrollRecord)
    (h1 : y.employeeId = base.employeeId) (h2 : y.periodId = base.periodId)
    (h3 : y.bonus = base.bonus)
    (h4 : y.insuranceDeduction = base.insuranceDeduction)
    (h5 : y.otherDeductions = base.otherDeductions) :
    maskDerived (prepRecord emp st y) = maskDerived (prepRecord emp st base)
    := by
  cases y
  cases base
  simp only at h1 h2 h3 h4 h5
  subst h1 h2 h3 h4 h5
  simp [prepRecord, maskDerived]

/-- The final totals step gives equal results on inputs that are
mask-equal, have equal `tax_deduction` and `absence_deduction`, and
either have a positive late-day count (so `late_penalty` is overwritten
anyway) or equal `late_penalty`. -/
lemma finish_congr (x1 x2 : PayrollRecord)
    (hmask : maskDerived x1 = maskDerived x2)
    (htax : x1.taxDeduction = x2.taxDeduction)
    (hab : x1.absenceDeduction = x2.absenceDeduction)
    (hlp : 0 < x1.daysLate ∨ x1.latePenalty = x2.latePenalty) :
    finishRecord x1 = finishRecord x2 := by
  obtain ⟨e, p, th, rh, oh, dw, da, dl, bs, hr, rp, op, bo, tx, ins, od,
    lp, ab, gs, tds, ns⟩ := x1
  obtain ⟨e', p', th', rh', oh', dw', da', dl', bs', hr', rp', op', bo',
    tx', ins', od', lp', ab', gs', tds', ns'⟩ := x2
  simp only [maskDerived, PayrollRecord.mk.injEq, eq_self_iff_true,
    and_true, true_and] at hmask
  obtain ⟨rfl, rfl, rfl, rfl, rfl, rfl, rfl, rfl, rfl, rfl, rfl, rfl, rfl,
    rfl, rfl⟩ := hmask
  simp only at htax hab
  subst htax hab
  rcases hlp with hdl | hlp
  · simp only at hdl
    simp [finishRecord, hdl]
  · simp only at hlp
    subst hlp
    by_cases hdl : 0 < dl <;> simp [finishRecord, hdl]

/-- `calculate_employee_payroll` keeps the identifiers of the record it
updates (or stamps the requested ones on a fresh record). -/
lemma calc_ids (emp : Employee) (recs : List AttRow) (sd ed : ℕ)
    (rules : List SalaryRule) (eid pid : ℕ)
    (existing : Option PayrollRecord) :
    (calculateEmployeePayroll emp recs sd ed rules eid pid
        existing).employeeId =
      (existing.getD (freshPayrollRecord eid pid)).employeeId ∧
    (calculateEmployeePayroll emp recs sd ed rules eid pid
        existing).periodId =
      (existing.getD (freshPayrollRecord eid pid)).periodId := by
  unfold calculateEmployeePayroll
  constructor
  · rw [(finishRecord_keeps _).1, (applySalaryRules_untouched _ _ _).1]
    rfl
  · rw [(finishRecord_keeps _).2.1, (applySalaryRules_untouched _ _ _).2.1]
    rfl

/-- C1 (amended), record level: under `noAccumRule` for every rule,
re-running `calculate_employee_payroll` on its own output reproduces
that output exactly. -/
lemma calc_idem (emp : Employee) (recs : List AttRow) (sd ed : ℕ)
    (rules : List SalaryRule) (eid pid : ℕ)
    (existing : Option PayrollRecord)
    (hna : rules.all (noAccumRule emp) = true) :
    calculateEmployeePayroll emp recs sd ed rules eid pid
      (some (calculateEmployeePayroll emp recs sd ed rules eid pid
        existing)) =
    calculateEmployeePayroll emp recs sd ed rules eid pid existing := by
  have hL : ∀ r ∈ rules.filter (·.isActive), r.isActive = true ∧
      noAccumRule emp r = true := by
    intro r hr
    have hm := List.mem_filter.mp hr
    exact ⟨by simpa using hm.2, List.all_eq_true.mp hna r hm.1⟩
  set stats := calculateWorkStatistics recs sd ed with hstats
  set base := existing.getD (freshPayrollRecord eid pid) with hbase
  set A := (rules.filter (·.isActive)).foldl (applyOneRule emp)
    (prepRecord emp stats base) with hA
  have hyd : calculateEmployeePayroll emp recs sd ed rules eid pid existing
      = finishRecord A := rfl
  set y := finishRecord A with hy
  have hgoal : calculateEmployeePayroll emp recs sd ed rules eid pid
      (some y) = finishRecord ((rules.filter (·.isActive)).foldl
        (applyOneRule emp) (prepRecord emp stats y)) := rfl
  rw [hyd, hgoal]
  -- the carried fields of `y` coincide with those of `base`
  have hbo := foldl_bonus_other emp (rules.filter (·.isActive))
    (prepRecord emp stats base) hL
  have hun := foldl_untouched emp (rules.filter (·.isActive))
    (prepRecord emp stats base)
  have hkeep := finishRecord_keeps A
  have hins := finishRecord_insurance A
  have hff := finishRecord_fields A
  have hmask : maskDerived (prepRecord emp stats y) =
      maskDerived (prepRecord emp stats base) :=
    prep_mask_congr emp stats y base
      (hkeep.1.trans hun.1)
      (hkeep.2.1.trans hun.2.1)
      ((hkeep.2.2.2.1).trans hbo.1)
      (hins.trans hun.2.2.2.2.2.2.2.2.2.2.2)
      ((hkeep.2.2.2.2).trans hbo.2)
  set B := (rules.filter (·.isActive)).foldl (applyOneRule emp)
    (prepRecord emp stats y) with hB
  have hag := foldl_agree emp (rules.filter (·.isActive))
    (prepRecord emp stats base) (prepRecord emp stats y) hmask.symm
  -- `tax_deduction` converges
  have htax : A.taxDeduction = B.taxDeduction := by
    rcases hag.2.1 with he | ⟨_, eb⟩
    · exact he
    · rw [eb]
      exact (hkeep.2.2.1).symm
  -- `absence_deduction` converges
  have hab : A.absenceDeduction = B.absenceDeduction := by
    rcases hag.2.2.2 with he | ⟨_, eb⟩
    · exact he
    · rw [eb]
      exact (hff.2.2.2.1).symm
  -- `late_penalty` converges or is overwritten by the flat penalty
  have hlp : 0 < A.daysLate ∨ A.latePenalty = B.latePenalty := by
    rcases hag.2.2.1 with he | ⟨_, eb⟩
    · exact Or.inr he
    · by_cases hdl : 0 < A.daysLate
      · exact Or.inl hdl
      · refine Or.inr ?_
        rw [eb]
        show A.latePenalty = (finishRecord A).latePenalty
        rw [hff.1, if_neg hdl]
  exact (finish_congr A B hag.1 htax hab hlp).symm

/-- The computed record carries the (employee, period) key: fresh
records are stamped with it, updated records keep theirs. -/
lemma calc_key (emp : Employee) (recs : List AttRow) (sd ed : ℕ)
    (rules : List SalaryRule) (eid pid : ℕ) :
    recordKey eid pid (calculateEmployeePayroll emp recs sd ed rules eid
      pid none) = true ∧
    ∀ r : PayrollRecord, recordKey eid pid r = true →
      recordKey eid pid (calculateEmployeePayroll emp recs sd ed rules eid
        pid (some r)) = true := by
  constructor
  · have h := calc_ids emp recs sd ed rules eid pid none
    simp [recordKey, h.1, h.2, freshPayrollRecord]
  · intro r hr
    have h := calc_ids emp recs sd ed rules eid pid (some r)
    simp only [Option.getD_some] at h
    simpa [recordKey, h.1, h.2] using hr

/-- A store holding a row with the key is updated in place: the upsert
does not change its length. -/
lemma step_len_of_any (emp : Employee) (recs : List AttRow) (sd ed : ℕ)
    (rules : List SalaryRule) (eid pid : ℕ) :
    ∀ store : List PayrollRecord, store.any (recordKey eid pid) = true →
    (calculatePayrollStep emp recs sd ed rules eid pid store).length =
      store.length := by
  intro store
  induction store with
  | nil => intro h; simp at h
  | cons r rs ih =>
      intro h
      by_cases hr : recordKey eid pid r = true
      · simp [calculatePayrollStep, hr]
      · have hrs : rs.any (recordKey eid pid) = true := by
          rcases List.any_eq_true.mp h with ⟨q, hq, hkq⟩
          rcases List.mem_cons.mp hq with rfl | hq
          · exact absurd hkq hr
          · exact List.any_eq_true.mpr ⟨q, hq, hkq⟩
        simp [calculatePayrollStep, hr, ih hrs]

/-- After the upsert the store always holds a row with the key. -/
lemma step_any (emp : Employee) (recs : List AttRow) (sd ed : ℕ)
    (rules : List SalaryRule) (eid pid : ℕ) :
    ∀ store : List PayrollRecord,
    (calculatePayrollStep emp recs sd ed rules eid pid store).any
      (recordKey eid pid) = true := by
  intro store
  induction store with
  | nil =>
      simp [calculatePayrollStep,
        (calc_key emp recs sd ed rules eid pid).1]
  | cons r rs ih =>
      by_cases hr : recordKey eid pid r = true
      · simp [calculatePayrollStep, hr,
          (calc_key emp recs sd ed rules eid pid).2 r hr]
      · simp only [calculatePayrollStep, hr, Bool.false_eq_true, if_false,
          List.any_cons]
        rw [ih]
        simp

/-- Store-level idempotence under `noAccumRule`. -/
lemma step_idem (emp : Employee) (recs : List AttRow) (sd ed : ℕ)
    (rules : List SalaryRule) (eid pid : ℕ)
    (hna : rules.all (noAccumRule emp) = true) :
    ∀ store : List PayrollRecord,
    calculatePayrollStep emp recs sd ed rules eid pid
      (calculatePayrollStep emp recs sd ed rules eid pid store) =
    calculatePayrollStep emp recs sd ed rules eid pid store := by
  intro store
  induction store with
  | nil =>
      simp only [calculatePayrollStep]
      rw [if_pos (calc_key emp recs sd ed rules eid pid).1,
        calc_idem emp recs sd ed rules eid pid none hna]
  | cons r rs ih =>
      by_cases hr : recordKey eid pid r = true
      · simp only [calculatePayrollStep, hr, if_true]
        rw [if_pos ((calc_key emp recs sd ed rules eid pid).2 r hr),
          calc_idem emp recs sd ed rules eid pid (some r) hna]
      · simp only [calculatePayrollStep, hr, Bool.false_eq_true, if_false]
        rw [ih]

/-- C1 counterexample: an active `bonus` rule with `fixed_amount = 100`
applies to everyone; `calculate_employee_payroll` is *not* idempotent —
the first run nets `100`, re-running on the stored record nets `200`,
because `_apply_bonus_rule` accumulates (`+=`) into the `bonus` field
and re-invocation never resets it. -/
theorem payroll_idempotent_C1_counterexample :
    (calculateEmployeePayroll ⟨some 160, none, none⟩ [] 5 5
        [⟨"bonus", none, some 100, none, true, none, none, true⟩] 1 1
        none).netSalary = 100 ∧
    (calculateEmployeePayroll ⟨some 160, none, none⟩ [] 5 5
        [⟨"bonus", none, some 100, none, true, none, none, true⟩] 1 1
        (some (calculateEmployeePayroll ⟨some 160, none, none⟩ [] 5 5
          [⟨"bonus", none, some 100, none, true, none, none, true⟩] 1 1
          none))).netSalary = 200 := by
  constructor <;>
    · simp +decide only [calculateEmployeePayroll, prepRecord, finishRecord,
        applySalaryRules, applyOneRule, applyBonusRule,
        calculateWorkStatistics, statsLoop, expectedWorkingDays,
        countWeekdays, calculateHourlyRate, ruleAppliesToEmployee, qTruthy,
        qOr, freshPayrollRecord, List.foldl, List.filter, List.any]
      norm_num

/-- C1 (amended): re-invoking `calculate_employee_payroll` updates the
existing (employee, period) record in place — the store never gains a
second row for the pair — and reproduces the stored record exactly
whenever no applicable active `bonus`/`deduction` rule has a truthy
`fixed_amount` or `percentage` (those accumulate into `bonus` /
`other_deductions` and break idempotence, as the counterexample
shows). -/
theorem payroll_idempotent_C1 (emp : Employee) (recs : List AttRow)
    (sd ed : ℕ) (rules : List SalaryRule) (eid pid : ℕ)
    (existing : Option PayrollRecord) (store : List PayrollRecord)
    (hna : rules.all (noAccumRule emp) = true) :
    calculateEmployeePayroll emp recs sd ed rules eid pid
      (some (calculateEmployeePayroll emp recs sd ed rules eid pid
        existing)) =
      calculateEmployeePayroll emp recs sd ed rules eid pid existing ∧
    (calculatePayrollStep emp recs sd ed rules eid pid
        (calculatePayrollStep emp recs sd ed rules eid pid store)).length =
      (calculatePayrollStep emp recs sd ed rules eid pid store).length ∧
    calculatePayrollStep emp recs sd ed rules eid pid
      (calculatePayrollStep emp recs sd ed rules eid pid store) =
      calculatePayrollStep emp recs sd ed rules eid pid store :=
  ⟨calc_idem emp recs sd ed rules eid pid existing hna,
   step_len_of_any emp recs sd ed rules eid pid _
     (step_any emp recs sd ed rules eid pid store),
   step_idem emp recs sd ed rules eid pid hna store⟩

/-- C1 witness: a 10% tax rule (which overwrites, never accumulates)
satisfies `noAccumRule`; the second run reproduces the first run's
record and the store stays a single row. -/
theorem payroll_idempotent_C1_witness :
    ([(⟨"tax", none, none, some 10, true, none, none, true⟩ :
        SalaryRule)].all (noAccumRule ⟨some 160, none, none⟩) = true) ∧
    calculateEmployeePayroll ⟨some 160, none, none⟩ [⟨some 30000, some 8⟩]
      0 0 [⟨"tax", none, none, some 10, true, none, none, true⟩] 1 1
      (some (calculateEmployeePayroll ⟨some 160, none, none⟩
        [⟨some 30000, some 8⟩] 0 0
        [⟨"tax", none, none, some 10, true, none, none, true⟩] 1 1 none)) =
      calculateEmployeePayroll ⟨some 160, none, none⟩ [⟨some 30000, some 8⟩]
        0 0 [⟨"tax", none, none, some 10, true, none, none, true⟩] 1 1
        none ∧
    (calculatePayrollStep ⟨some 160, none, none⟩ [⟨some 30000, some 8⟩] 0 0
        [⟨"tax", none, none, some 10, true, none, none, true⟩] 1 1
        (calculatePayrollStep ⟨some 160, none, none⟩ [⟨some 30000, some 8⟩]
          0 0 [⟨"tax", none, none, some 10, true, none, none, true⟩] 1 1
          [])).length =
      (calculatePayrollStep ⟨some 160, none, none⟩ [⟨some 30000, some 8⟩]
        0 0 [⟨"tax", none, none, some 10, true, none, none, true⟩] 1 1
        []).length :=
  ⟨by decide,
   (payroll_idempotent_C1 ⟨some 160, none, none⟩ [⟨some 30000, some 8⟩] 0 0
     [⟨"tax", none, none, some 10, true, none, none, true⟩] 1 1 none []
     (by decide)).1,
   (payroll_idempotent_C1 ⟨some 160, none, none⟩ [⟨some 30000, some 8⟩] 0 0
     [⟨"tax", none, none, some 10, true, none, none, true⟩] 1 1 none []
     (by decide)).2.1⟩

/-! ### C3 / C4 — face matcher -/

/-- A centred sum of squares is nonnegative. -/
lemma varSum_nonneg (xs : List ℚ) : 0 ≤ varSum xs := by
  apply List.sum_nonneg
  intro x hx
  rcases List.mem_map.mp hx with ⟨y, _, rfl⟩
  positivity

/-- Every correlation representation the service builds has a positive
radicand (NaN and the exception case are folded to radicand `1`). -/
lemma compareFaces_p_pos (tol : ℚ) (k u : List ℚ) :
    0 < (compareFaces tol k u).2.p := by
  unfold compareFaces
  by_cases hl : k.length ≠ u.length
  · simp [hl]
  · simp only [hl, if_false]
    unfold pearson
    by_cases hP : varSum k * varSum u = 0
    · simp [hP]
    · simp only [hP, if_false]
      exact lt_of_le_of_ne (mul_nonneg (varSum_nonneg k) (varSum_nonneg u))
        (Ne.symm hP)

/-- Soundness of the exact `≥`-test: for `p > 0`,
`corrGe ⟨s, p⟩ q` decides `q ≤ s / √p` over the reals. -/
lemma corrGe_iff (c : CorrRep) (q : ℚ) (hp : 0 < c.p) :
    corrGe c q = true ↔
      (q : ℝ) ≤ (c.s : ℝ) / Real.sqrt (c.p : ℝ) := by
  have hP : (0 : ℝ) < (c.p : ℝ) := by exact_mod_cast hp
  have hsq : 0 < Real.sqrt (c.p : ℝ) := Real.sqrt_pos.mpr hP
  have hsp : Real.sqrt (c.p : ℝ) ^ 2 = (c.p : ℝ) := Real.sq_sqrt hP.le
  rw [le_div_iff hsq]
  unfold corrGe
  split_ifs with hs
  · have hs' : (0 : ℝ) ≤ (c.s : ℝ) := by exact_mod_cast hs
    simp only [Bool.or_eq_true, decide_eq_true_eq]
    constructor
    · rintro (hq | hq)
      · have hq' : (q : ℝ) ≤ 0 := by exact_mod_cast hq
        nlinarith
      · have hq' : (q : ℝ) ^ 2 * (c.p : ℝ) ≤ (c.s : ℝ) ^ 2 := by
          exact_mod_cast hq
        rcases le_or_lt (q : ℝ) 0 with h0 | h0
        · nlinarith
        · nlinarith [sq_nonneg ((q : ℝ) * Real.sqrt (c.p : ℝ) - (c.s : ℝ))]
    · intro hq
      rcases le_or_lt q 0 with h0 | h0
      · exact Or.inl h0
      · refine Or.inr ?_
        have h0' : (0 : ℝ) < (q : ℝ) := by exact_mod_cast h0
        have key : ((q : ℝ) * Real.sqrt (c.p : ℝ)) ^ 2 ≤ (c.s : ℝ) ^ 2 := by
          nlinarith [mul_pos h0' hsq]
        have : (q : ℝ) ^ 2 * (c.p : ℝ) ≤ (c.s : ℝ) ^ 2 := by
          calc (q : ℝ) ^ 2 * (c.p : ℝ)
              = ((q : ℝ) * Real.sqrt (c.p : ℝ)) ^ 2 := by
                rw [mul_pow, hsp]
            _ ≤ _ := key
        exact_mod_cast this
  · have hs' : (c.s : ℝ) < 0 := by
      push_neg at hs
      exact_mod_cast hs
    simp only [Bool.and_eq_true, decide_eq_true_eq]
    constructor
    · rintro ⟨hq0, hq⟩
      have hq0' : (q : ℝ) < 0 := by exact_mod_cast hq0
      have hq' : (c.s : ℝ) ^ 2 ≤ (q : ℝ) ^ 2 * (c.p : ℝ) := by
        exact_mod_cast hq
      have hpos : 0 < -(q : ℝ) * Real.sqrt (c.p : ℝ) :=
        mul_pos (neg_pos.mpr hq0') hsq
      have key : (c.s : ℝ) ^ 2 ≤ (-(q : ℝ) * Real.sqrt (c.p : ℝ)) ^ 2 := by
        calc (c.s : ℝ) ^ 2 ≤ (q : ℝ) ^ 2 * (c.p : ℝ) := hq'
          _ = (-(q : ℝ) * Real.sqrt (c.p : ℝ)) ^ 2 := by
              rw [mul_pow, hsp]
              ring
      nlinarith [key, hpos, neg_pos.mpr hs']
    · intro hq
      have hq0' : (q : ℝ) < 0 := by
        nlinarith
      refine ⟨by exact_mod_cast hq0', ?_⟩
      have : (c.s : ℝ) ^ 2 ≤ (q : ℝ) ^ 2 * (c.p : ℝ) := by
        nlinarith
      exact_mod_cast this

/-- Soundness of the exact `>`-test: for positive radicands,
`corrGt c₁ c₂` decides `s₂/√p₂ < s₁/√p₁` over the reals. -/
lemma corrGt_iff (c₁ c₂ : CorrRep) (h₁ : 0 < c₁.p) (h₂ : 0 < c₂.p) :
    corrGt c₁ c₂ = true ↔
      (c₂.s : ℝ) / Real.sqrt (c₂.p : ℝ) <
        (c₁.s : ℝ) / Real.sqrt (c₁.p : ℝ) := by
  have hP₁ : (0 : ℝ) < (c₁.p : ℝ) := by exact_mod_cast h₁
  have hP₂ : (0 : ℝ) < (c₂.p : ℝ) := by exact_mod_cast h₂
  have hsq₁ : 0 < Real.sqrt (c₁.p : ℝ) := Real.sqrt_pos.mpr hP₁
  have hsq₂ : 0 < Real.sqrt (c₂.p : ℝ) := Real.sqrt_pos.mpr hP₂
  have hsp₁ : Real.sqrt (c₁.p : ℝ) ^ 2 = (c₁.p : ℝ) := Real.sq_sqrt hP₁.le
  have hsp₂ : Real.sqrt (c₂.p : ℝ) ^ 2 = (c₂.p : ℝ) := Real.sq_sqrt hP₂.le
  rw [div_lt_div_iff hsq₂ hsq₁]
  unfold corrGt
  split_ifs with hs₁ hs₂ hs₂
  · have hs₁' : (0 : ℝ) ≤ (c₁.s : ℝ) := by exact_mod_cast hs₁
    have hs₂' : (0 : ℝ) ≤ (c₂.s : ℝ) := by exact_mod_cast hs₂
    simp only [decide_eq_true_eq]
    constructor
    · intro hq
      have hq' : (c₂.s : ℝ) ^ 2 * (c₁.p : ℝ) <
          (c₁.s : ℝ) ^ 2 * (c₂.p : ℝ) := by exact_mod_cast hq
      nlinarith [mul_nonneg hs₂' hsq₁.le, mul_nonneg hs₁' hsq₂.le,
        sq_nonneg ((c₂.s : ℝ) * Real.sqrt (c₁.p : ℝ) +
          (c₁.s : ℝ) * Real.sqrt (c₂.p : ℝ))]
    · intro hq
      have : (c₂.s : ℝ) ^ 2 * (c₁.p : ℝ) <
          (c₁.s : ℝ) ^ 2 * (c₂.p : ℝ) := by
        nlinarith [mul_nonneg hs₂' hsq₁.le, mul_nonneg hs₁' hsq₂.le]
      exact_mod_cast this
  · have hs₁' : (0 : ℝ) ≤ (c₁.s : ℝ) := by exact_mod_cast hs₁
    have hs₂' : (c₂.s : ℝ) < 0 := by
      push_neg at hs₂
      exact_mod_cast hs₂
    simp only [true_iff]
    calc (c₂.s : ℝ) * Real.sqrt (c₁.p : ℝ) < 0 :=
          mul_neg_of_neg_of_pos hs₂' hsq₁
      _ ≤ (c₁.s : ℝ) * Real.sqrt (c₂.p : ℝ) := mul_nonneg hs₁' hsq₂.le
  · have hs₁' : (c₁.s : ℝ) < 0 := by
      push_neg at hs₁
      exact_mod_cast hs₁
    have hs₂' : (0 : ℝ) ≤ (c₂.s : ℝ) := by exact_mod_cast hs₂
    simp only [false_iff, not_lt]
    calc (c₁.s : ℝ) * Real.sqrt (c₂.p : ℝ) ≤ 0 :=
          (mul_nonpos_iff.mpr (Or.inr ⟨hs₁'.le, hsq₂.le⟩))
      _ ≤ (c₂.s : ℝ) * Real.sqrt (c₁.p : ℝ) := mul_nonneg hs₂' hsq₁.le
  · have hs₁' : (c₁.s : ℝ) < 0 := by
      push_neg at hs₁
      exact_mod_cast hs₁
    have hs₂' : (c₂.s : ℝ) < 0 := by
      push_neg at hs₂
      exact_mod_cast hs₂
    simp only [decide_eq_true_eq]
    constructor
    · intro hq
      have hq' : (c₁.s : ℝ) ^ 2 * (c₂.p : ℝ) <
          (c₂.s : ℝ) ^ 2 * (c₁.p : ℝ) := by exact_mod_cast hq
      nlinarith [sq_nonneg ((c₂.s : ℝ) * Real.sqrt (c₁.p : ℝ) +
        (c₁.s : ℝ) * Real.sqrt (c₂.p : ℝ)),
        mul_pos (neg_pos.mpr hs₁') hsq₂,
        mul_pos (neg_pos.mpr hs₂') hsq₁]
    · intro hq
      have : (c₁.s : ℝ) ^ 2 * (c₂.p : ℝ) <
          (c₂.s : ℝ) ^ 2 * (c₁.p : ℝ) := by
        nlinarith [mul_pos (neg_pos.mpr hs₁') hsq₂,
          mul_pos (neg_pos.mpr hs₂') hsq₁]
      exact_mod_cast this

/-- Strict transitivity of the exact distance comparison. -/
lemma corrGt_trans {a b c : CorrRep} (ha : 0 < a.p) (hb : 0 < b.p)
    (hc : 0 < c.p) (h₁ : corrGt a b = true) (h₂ : corrGt b c = true) :
    corrGt a c = true := by
  rw [corrGt_iff a b ha hb] at h₁
  rw [corrGt_iff b c hb hc] at h₂
  rw [corrGt_iff a c ha hc]
  exact h₂.trans h₁

/-- `a` strictly better than `b`, `c` not better than `b` — then `a`
is strictly better than `c`. -/
lemma corrGt_trans_not {a b c : CorrRep} (ha : 0 < a.p) (hb : 0 < b.p)
    (hc : 0 < c.p) (h₁ : corrGt a b = true) (h₂ : corrGt c b = false) :
    corrGt a c = true := by
  have h₂' : ¬ (corrGt c b = true) := by simp [h₂]
  rw [corrGt_iff c b hc hb] at h₂'
  rw [corrGt_iff a b ha hb] at h₁
  rw [corrGt_iff a c ha hc]
  exact lt_of_le_of_lt (not_lt.mp h₂') h₁

/-- The scan of `find_best_match`, fully characterised: either nothing
beats the incoming best (which is returned unchanged — `none` at the
top level), or the result comes from a specific candidate that matched,
beat the incoming best, strictly beats every *earlier* match (first-seen
wins exact ties) and is not strictly beaten by any *later* match. -/
lemma findLoop_cases (tol : ℚ) (u : List ℚ) : ∀ (known : List (ℕ × List ℚ))
    (best : Option (ℕ × CorrRep)),
    (∀ b, best = some b → 0 < b.2.p) →
    (findLoop tol u known best = best ∧
      ∀ p ∈ known, (compareFaces tol p.2 u).1 = true →
        distLtBest (compareFaces tol p.2 u).2 best = false) ∨
    (∃ pre q post, known = pre ++ q :: post ∧
      (compareFaces tol q.2 u).1 = true ∧
      findLoop tol u known best = some (q.1, (compareFaces tol q.2 u).2) ∧
      distLtBest (compareFaces tol q.2 u).2 best = true ∧
      (∀ r ∈ pre, (compareFaces tol r.2 u).1 = true →
        corrGt (compareFaces tol q.2 u).2 (compareFaces tol r.2 u).2 =
          true) ∧
      (∀ r ∈ post, (compareFaces tol r.2 u).1 = true →
        corrGt (compareFaces tol r.2 u).2 (compareFaces tol q.2 u).2 =
          false)) := by
  intro known
  induction known with
  | nil =>
      intro best _
      exact Or.inl ⟨rfl, by simp⟩
  | cons x xs ih =>
      intro best hbp
      obtain ⟨xid, xkf⟩ := x
      have hunfold : findLoop tol u ((xid, xkf) :: xs) best =
          if ((compareFaces tol xkf u).1 &&
              distLtBest (compareFaces tol xkf u).2 best) = true then
            findLoop tol u xs
              (some (xid, (compareFaces tol xkf u).2))
          else findLoop tol u xs best := rfl
      by_cases hm : ((compareFaces tol xkf u).1 &&
          distLtBest (compareFaces tol xkf u).2 best) = true
      · obtain ⟨hm1, hm2⟩ : (compareFaces tol xkf u).1 = true ∧
            distLtBest (compareFaces tol xkf u).2 best = true := by
          simpa using hm
        have hres0 : findLoop tol u ((xid, xkf) :: xs) best =
            findLoop tol u xs (some (xid, (compareFaces tol xkf u).2)) := by
          rw [hunfold, if_pos (by simp [hm1, hm2])]
        have hbp' : ∀ b, some (xid, (compareFaces tol xkf u).2) = some b →
            0 < b.2.p := by
          rintro b hb
          cases hb
          exact compareFaces_p_pos tol xkf u
        rcases ih (some (xid, (compareFaces tol xkf u).2)) hbp' with
          ⟨heq, hall⟩ | ⟨pre, q, post, hsplit, hq1, hres, hdlt, hpre, hpost⟩
        · refine Or.inr ⟨[], (xid, xkf), xs, rfl, hm1, ?_, hm2, by simp, ?_⟩
          · rw [hres0, heq]
          · intro r hr hr1
            have := hall r hr hr1
            simpa [distLtBest] using this
        · refine Or.inr ⟨(xid, xkf) :: pre, q, post, by rw [hsplit]; rfl, hq1,
            by rw [hres0, hres], ?_, ?_, hpost⟩
          · -- the chosen candidate also beats the incoming best
            cases best with
            | none => rfl
            | some b =>
                have hqx : corrGt (compareFaces tol q.2 u).2
                    (compareFaces tol xkf u).2 = true := by
                  simpa [distLtBest] using hdlt
                have hxb : corrGt (compareFaces tol xkf u).2 b.2 = true := by
                  simpa [distLtBest] using hm2
                simpa [distLtBest] using
                  corrGt_trans (compareFaces_p_pos tol q.2 u)
                    (compareFaces_p_pos tol xkf u) (hbp b rfl) hqx hxb
          · intro r hr hr1
            rcases List.mem_cons.mp hr with rfl | hr
            · simpa [distLtBest] using hdlt
            · exact hpre r hr hr1
      · have hres0 : findLoop tol u ((xid, xkf) :: xs) best =
            findLoop tol u xs best := by
          rw [hunfold, if_neg (by simpa using hm)]
        have hskip : (compareFaces tol xkf u).1 = true →
            distLtBest (compareFaces tol xkf u).2 best = false := by
          intro h1
          cases hdl : distLtBest (compareFaces tol xkf u).2 best
          · rfl
          · exact absurd (by simp [h1, hdl]) hm
        rcases ih best hbp with
          ⟨heq, hall⟩ | ⟨pre, q, post, hsplit, hq1, hres, hdlt, hpre, hpost⟩
        · refine Or.inl ⟨by rw [hres0, heq], ?_⟩
          intro p hp hp1
          rcases List.mem_cons.mp hp with rfl | hp
          · exact hskip hp1
          · exact hall p hp hp1
        · refine Or.inr ⟨(xid, xkf) :: pre, q, post, by rw [hsplit]; rfl, hq1,
            by rw [hres0, hres], hdlt, ?_, hpost⟩
          intro r hr hr1
          rcases List.mem_cons.mp hr with rfl | hr
          · -- the candidate at the head failed against the incoming best,
            -- which the chosen candidate beats
            cases best with
            | none => exact absurd (hskip hr1) (by simp [distLtBest])
            | some b =>
                have hxb : corrGt (compareFaces tol xkf u).2 b.2 = false := by
                  simpa [distLtBest] using hskip hr1
                have hqb : corrGt (compareFaces tol q.2 u).2 b.2 = true := by
                  simpa [distLtBest] using hdlt
                exact corrGt_trans_not (compareFaces_p_pos tol q.2 u)
                  (hbp b rfl) (compareFaces_p_pos tol xkf u) hqb hxb
          · exact hpre r hr hr1

/-- The Pearson representation has a positive radicand. -/
lemma pearson_p_pos (k u : List ℚ) : 0 < (pearson k u).p := by
  unfold pearson
  by_cases hP : varSum k * varSum u = 0
  · simp [hP]
  · simp only [hP, if_false]
    exact lt_of_le_of_ne (mul_nonneg (varSum_nonneg k) (varSum_nonneg u))
      (Ne.symm hP)

/-- C3 counterexample: `unknown = [1,0,1,0]` against the single
candidate `(7, [1,1,0,0])` has Pearson correlation exactly `0`, so the
claim's distance is `1 - (0+1)/2 = 1/2 ≤ 0.6 = tolerance` and the
spec-worded matcher returns employee 7 — but the code tests
`similarity ≥ tolerance` (distance ≤ `1 - 0.6 = 0.4`) and treats NaN as
correlation `0` (similarity `0.5`), so `find_best_match` returns
`None`. -/
theorem face_best_match_C3_counterexample :
    findBestMatchSpec (3/5) [1, 0, 1, 0] [(7, [1, 1, 0, 0])] =
      some (7, ⟨0, 1⟩) ∧
    findBestMatch (3/5) [1, 0, 1, 0] [(7, [1, 1, 0, 0])] = none := by
  constructor
  · norm_num [findBestMatchSpec, findLoopSpec, compareFacesSpec, covSum,
      varSum, listMean, corrGe, distLtBest, List.zip, List.zipWith,
      List.map, List.sum]
  · norm_num [findBestMatch, findLoop, compareFaces, pearson, covSum,
      varSum, listMean, corrGe, distLtBest, List.zip, List.zipWith,
      List.map, List.sum]

/-- C3 (amended): `find_best_match` returns the first-seen candidate
attaining the minimum distance among matching candidates — where a
candidate matches iff its vector length agrees and
`similarity = (corr+1)/2 ≥ tolerance`, i.e. `distance = (1-corr)/2 ≤
1 - tolerance` (not `distance ≤ tolerance` as the spec words it), with
NaN correlation treated as correlation 0 (similarity `0.5`) — and
returns `None` on an empty candidate list or when no candidate
matches. -/
theorem face_best_match_C3 (tol : ℚ) (unknown : List ℚ)
    (known : List (ℕ × List ℚ)) :
    (known = [] → findBestMatch tol unknown known = none) ∧
    (findBestMatch tol unknown known = none ↔
      ∀ p ∈ known, (compareFaces tol p.2 unknown).1 = false) ∧
    (∀ c : ℕ × CorrRep, findBestMatch tol unknown known = some c →
      ∃ pre q post, known = pre ++ q :: post ∧ q.1 = c.1 ∧
        compareFaces tol q.2 unknown = (true, c.2) ∧
        (∀ r ∈ pre, (compareFaces tol r.2 unknown).1 = true →
          corrGt c.2 (compareFaces tol r.2 unknown).2 = true) ∧
        (∀ r ∈ post, (compareFaces tol r.2 unknown).1 = true →
          corrGt (compareFaces tol r.2 unknown).2 c.2 = false)) ∧
    (∀ k : List ℚ, k.length = unknown.length →
      ((compareFaces tol k unknown).1 = true ↔
        ((1 : ℝ) - ((pearson k unknown).s : ℝ) /
            Real.sqrt ((pearson k unknown).p : ℝ)) / 2 ≤
          1 - (tol : ℝ))) := by
  have hcases := findLoop_cases tol unknown known none
    (fun b hb => by cases hb)
  refine ⟨?_, ⟨?_, ?_⟩, ?_, ?_⟩
  · rintro rfl
    rfl
  · intro hnone p hp
    rcases hcases with ⟨_, hall⟩ | ⟨pre, q, post, _, _, hres, _, _, _⟩
    · cases hp1 : (compareFaces tol p.2 unknown).1
      · rfl
      · exact absurd (hall p hp hp1) (by simp [distLtBest])
    · rw [show findBestMatch tol unknown known =
          findLoop tol unknown known none from rfl, hres] at hnone
      cases hnone
  · intro hno
    rcases hcases with ⟨heq, _⟩ | ⟨pre, q, post, hsplit, hq1, _, _, _, _⟩
    · exact heq
    · refine absurd hq1 ?_
      have hqmem : q ∈ known := by
        rw [hsplit]
        exact List.mem_append_right _ (List.mem_cons_self _ _)
      rw [hno q hqmem]
      simp
  · intro c hc
    rcases hcases with ⟨heq, _⟩ | ⟨pre, q, post, hsplit, hq1, hres, _,
      hpre, hpost⟩
    · rw [show findBestMatch tol unknown known =
          findLoop tol unknown known none from rfl, heq] at hc
      cases hc
    · rw [show findBestMatch tol unknown known =
          findLoop tol unknown known none from rfl, hres] at hc
      have hqc : (q.1, (compareFaces tol q.2 unknown).2) = c := by
        injection hc
      have h1 : q.1 = c.1 := congrArg Prod.fst hqc
      have h2 : (compareFaces tol q.2 unknown).2 = c.2 :=
        congrArg Prod.snd hqc
      refine ⟨pre, q, post, hsplit, h1, ?_, ?_, ?_⟩
      · rw [← h2, ← hq1]
      · intro r hr hr1
        rw [← h2]
        exact hpre r hr hr1
      · intro r hr hr1
        rw [← h2]
        exact hpost r hr hr1
  · intro k hk
    have hmatch : (compareFaces tol k unknown).1 =
        corrGe (pearson k unknown) (2 * tol - 1) := by
      unfold compareFaces
      rw [if_neg (by simpa using hk)]
    rw [hmatch, corrGe_iff _ _ (pearson_p_pos k unknown)]
    constructor
    · intro h
      push_cast at h
      linarith
    · intro h
      push_cast
      linarith

/-- C3 witness: the empty candidate list yields `None`. -/
theorem face_best_match_C3_witness :
    (([] : List (ℕ × List ℚ)) = []) ∧
    findBestMatch (3/5) [1, 2] [] = none :=
  ⟨rfl, (face_best_match_C3 (3/5) [1, 2] []).1 rfl⟩

end Attendance
